import Mathlib

/-!
A verification development for the SPIR-V module writer
(`src/back/spv/writer.rs`).

The writer's own code (`writer.rs`) is translated function by function into
executable Lean definitions below, keeping the source's names and control
flow.  Collaborators that live in other files of the repository (the IR
arena types, the `Instruction` constructors, `LogicalLayout`,
`PhysicalLayout`, the `helpers` module, the recyclable trait and the
expression translator `BlockContext`) are modelled from the specification;
each such definition carries a doc comment starting with
`Modelled from the spec:`.

Conventions of the shallow embedding:
  * SPIR-V words are `Nat` (values kept below 2^32 by construction where it
    matters); Rust's `u32`/`u64` casts are written out as `% 2^32` / `% 2^64`
    and `i64 >> 32` (an arithmetic shift) as Euclidean division by `2^32`.
  * `FastHashMap` tables are association lists with lookup-first semantics
    (keys are unique because insertion only happens on a failed lookup).
  * `FastHashSet` values (`capabilities_used`) are lists with
    insert-if-absent semantics; only membership is meaningful, since a hash
    set does not expose a specified iteration order.
  * Rust `&mut self` methods become state-passing functions; fallible
    methods return `Except Error`; the `unreachable!`/`unwrap` aborts on
    invariant violations are modelled by the dedicated
    `Error.InvariantViolation` value, which the writer never produces on
    validated IR.
  * An `f64` value is represented by the pair of observations the writer
    makes of it: its `f64::to_bits` pattern and the bit pattern of its
    conversion to `f32`.
-/

namespace NagaSpv

/-- A SPIR-V word: 32-bit unsigned integer, the atomic unit of the format. -/
abbrev Word := Nat

/-- SPIR-V capabilities (fragment of the `spirv` crate enumeration: the
constructors the writer core mentions). -/
inductive Capability where
  | Shader
  | Linkage
  | Geometry
  | Float64
  | Int64
  | Int16
  | Int8
  | SampleRateShading
  | Sampled1D
  | Image1D
  | SampledCubeArray
  | ImageCubeArray
  | StorageImageExtendedFormats
  | Int64ImageEXT
  | MultiView
deriving DecidableEq, Repr

/-- Numeric value of a capability, from the SPIR-V specification (used only
by the opaque instruction serialization; no claim depends on the numbers). -/
def Capability.val : Capability → Word
  | .Shader => 1
  | .Linkage => 5
  | .Geometry => 2
  | .Float64 => 10
  | .Int64 => 11
  | .Int16 => 22
  | .Int8 => 39
  | .SampleRateShading => 35
  | .Sampled1D => 43
  | .Image1D => 44
  | .SampledCubeArray => 45
  | .ImageCubeArray => 34
  | .StorageImageExtendedFormats => 49
  | .Int64ImageEXT => 4437
  | .MultiView => 4439

/-- IR scalar kinds (`crate::ScalarKind`). -/
inductive ScalarKind where
  | Sint
  | Uint
  | Float
  | Bool
deriving DecidableEq, Repr

/-- IR vector sizes (`crate::VectorSize`). -/
inductive VectorSize where
  | Bi
  | Tri
  | Quad
deriving DecidableEq, Repr

/-- Number of components of a vector size. -/
def VectorSize.val : VectorSize → Word
  | .Bi => 2
  | .Tri => 3
  | .Quad => 4

/-- Modelled from the spec: IR storage access bitflags (`StorageAccess`),
with the `LOAD` and `STORE` bits. -/
structure StorageAccess where
  load : Bool
  store : Bool
deriving DecidableEq, Repr

/-- Modelled from the spec: IR storage classes (`crate::StorageClass`);
the field called `class` in the Rust IR is called `storage_class` here
because `class` is a Lean keyword. -/
inductive IrStorageClass where
  | Function
  | Private
  | WorkGroup
  | Uniform
  | Storage (access : StorageAccess)
  | Handle
  | PushConstant
deriving DecidableEq, Repr

/-- SPIR-V storage classes used by the writer. -/
inductive SpvStorageClass where
  | UniformConstant
  | Input
  | Uniform
  | Output
  | Workgroup
  | Private
  | Function
  | PushConstant
  | StorageBuffer
deriving DecidableEq, Repr

/-- Numeric value from the SPIR-V specification. -/
def SpvStorageClass.val : SpvStorageClass → Word
  | .UniformConstant => 0
  | .Input => 1
  | .Uniform => 2
  | .Output => 3
  | .Workgroup => 4
  | .Private => 6
  | .Function => 7
  | .PushConstant => 9
  | .StorageBuffer => 12

/-- Modelled from the spec: the IR-to-SPIR-V storage class map
(`helpers::map_storage_class`): `Storage` maps to `StorageBuffer` (which on
SPIR-V < 1.3 needs the `SPV_KHR_storage_buffer_storage_class` extension)
and opaque `Handle` globals live in `UniformConstant`. -/
def map_storage_class : IrStorageClass → SpvStorageClass
  | .Function => .Function
  | .Private => .Private
  | .WorkGroup => .Workgroup
  | .Uniform => .Uniform
  | .Storage _ => .StorageBuffer
  | .Handle => .UniformConstant
  | .PushConstant => .PushConstant

/-- IR built-ins (`crate::BuiltIn`). -/
inductive BuiltIn where
  | Position
  | ViewIndex
  | BaseInstance
  | BaseVertex
  | ClipDistance
  | CullDistance
  | InstanceIndex
  | PointSize
  | VertexIndex
  | FragDepth
  | FrontFacing
  | PrimitiveIndex
  | SampleIndex
  | SampleMask
  | GlobalInvocationId
  | LocalInvocationId
  | LocalInvocationIndex
  | WorkGroupId
  | WorkGroupSize
  | NumWorkGroups
deriving DecidableEq, Repr

/-- SPIR-V built-ins (fragment of the `spirv` crate enumeration). -/
inductive SpvBuiltIn where
  | Position
  | PointSize
  | ClipDistance
  | CullDistance
  | InstanceIndex
  | VertexIndex
  | FragCoord
  | FrontFacing
  | FragDepth
  | PrimitiveId
  | SampleId
  | SampleMask
  | GlobalInvocationId
  | LocalInvocationId
  | LocalInvocationIndex
  | WorkgroupId
  | WorkgroupSize
  | NumWorkgroups
  | BaseVertex
  | BaseInstance
  | ViewIndex
deriving DecidableEq, Repr

/-- Numeric value from the SPIR-V specification. -/
def SpvBuiltIn.val : SpvBuiltIn → Word
  | .Position => 0
  | .PointSize => 1
  | .ClipDistance => 3
  | .CullDistance => 4
  | .InstanceIndex => 43
  | .VertexIndex => 42
  | .FragCoord => 15
  | .FrontFacing => 17
  | .FragDepth => 22
  | .PrimitiveId => 7
  | .SampleId => 18
  | .SampleMask => 20
  | .GlobalInvocationId => 28
  | .LocalInvocationId => 27
  | .LocalInvocationIndex => 29
  | .WorkgroupId => 26
  | .WorkgroupSize => 25
  | .NumWorkgroups => 24
  | .BaseVertex => 4424
  | .BaseInstance => 4425
  | .ViewIndex => 4440

/-- IR interpolation qualifiers. -/
inductive Interpolation where
  | Perspective
  | Linear
  | Flat
deriving DecidableEq, Repr

/-- IR sampling qualifiers. -/
inductive Sampling where
  | Center
  | Centroid
  | Sample
deriving DecidableEq, Repr

/-- IR bindings (`crate::Binding`). -/
inductive Binding where
  | Location (location : Word) (interpolation : Option Interpolation)
      (sampling : Option Sampling)
  | BuiltIn (b : BuiltIn)
deriving DecidableEq, Repr

/-- `Binding::to_built_in`. -/
def Binding.to_built_in : Binding → Option NagaSpv.BuiltIn
  | .Location _ _ _ => none
  | .BuiltIn b => some b

/-- SPIR-V decorations used by the writer. -/
inductive Decoration where
  | Block
  | ColMajor
  | ArrayStride
  | MatrixStride
  | BuiltIn
  | NoPerspective
  | Flat
  | Centroid
  | Sample
  | NonWritable
  | NonReadable
  | Location
  | Binding
  | DescriptorSet
  | Offset
deriving DecidableEq, Repr

/-- Numeric value from the SPIR-V specification. -/
def Decoration.val : Decoration → Word
  | .Block => 2
  | .ColMajor => 5
  | .ArrayStride => 6
  | .MatrixStride => 7
  | .BuiltIn => 11
  | .NoPerspective => 13
  | .Flat => 14
  | .Centroid => 16
  | .Sample => 17
  | .NonWritable => 24
  | .NonReadable => 25
  | .Location => 30
  | .Binding => 33
  | .DescriptorSet => 34
  | .Offset => 35

/-- SPIR-V execution models. -/
inductive ExecutionModel where
  | Vertex
  | Fragment
  | GLCompute
deriving DecidableEq, Repr

/-- Numeric value from the SPIR-V specification. -/
def ExecutionModel.val : ExecutionModel → Word
  | .Vertex => 0
  | .Fragment => 4
  | .GLCompute => 5

/-- SPIR-V execution modes used by the writer. -/
inductive ExecutionMode where
  | OriginUpperLeft
  | DepthReplacing
  | LocalSize
deriving DecidableEq, Repr

/-- Numeric value from the SPIR-V specification. -/
def ExecutionMode.val : ExecutionMode → Word
  | .OriginUpperLeft => 7
  | .DepthReplacing => 12
  | .LocalSize => 17

/-- Signedness operand of `OpTypeInt` (`instructions::Signedness`). -/
inductive Signedness where
  | Unsigned
  | Signed
deriving DecidableEq, Repr

def Signedness.val : Signedness → Word
  | .Unsigned => 0
  | .Signed => 1

/-- IR scalar constant values (`crate::ScalarValue`).  A float is
represented by the two observations `write_constant_scalar` makes of the
`f64`: its `f64::to_bits` pattern (`bits64 < 2^64`) and the bit pattern of
its conversion to `f32` (`bits32 < 2^32`). -/
inductive ScalarValue where
  | Sint (v : Int)
  | Uint (v : Nat)
  | Float (bits64 : Nat) (bits32 : Nat)
  | Bool (b : Bool)
deriving DecidableEq, Repr

/-- `ScalarValue::scalar_kind`. -/
def ScalarValue.scalar_kind : ScalarValue → ScalarKind
  | .Sint _ => .Sint
  | .Uint _ => .Uint
  | .Float _ _ => .Float
  | .Bool _ => .Bool

/-- The `f64` value `1.0`, given by its bit patterns (used by the
`FORCE_POINT_SIZE` path). -/
def float_one : ScalarValue := .Float 4607182418800017408 1065353216

/-- Modelled from the spec: SPIR-V instructions are opaque records built by
per-opcode constructors and serialized by a helper library; this inductive
has one constructor per builder the writer core calls, carrying the
operands that builder receives.  The Rust constructor `Instruction::variable`
is called `variable'` because `variable` is a Lean keyword. -/
inductive Instruction where
  | label (id : Word)
  | variable' (pointer_type_id : Word) (id : Word) (storage_class : SpvStorageClass)
      (init : Option Word)
  | load (type_id : Word) (id : Word) (pointer_id : Word) (access : Option Word)
  | store (pointer_id : Word) (value_id : Word) (access : Option Word)
  | composite_construct (type_id : Word) (id : Word) (constituent_ids : List Word)
  | function_parameter (type_id : Word) (id : Word)
  | function' (return_type_id : Word) (id : Word) (function_control : Word)
      (function_type_id : Word)
  | function_end
  | branch (target : Word)
  | entry_point (model : ExecutionModel) (function_id : Word) (nm : String)
      (interface_ids : List Word)
  | execution_mode (function_id : Word) (mode : ExecutionMode) (args : List Word)
  | ext_inst_import (id : Word) (nm : String)
  | capability (cap : Capability)
  | source (language : Word) (version : Word)
  | name (id : Word) (nm : String)
  | member_name (id : Word) (member : Word) (nm : String)
  | memory_model (addressing : Word) (memory : Word)
  | extension (nm : String)
  | decorate (target_id : Word) (decoration : Decoration) (operands : List Word)
  | member_decorate (target_id : Word) (member_index : Word) (decoration : Decoration)
      (operands : List Word)
  | type_void (id : Word)
  | type_bool (id : Word)
  | type_int (id : Word) (bits : Word) (signedness : Signedness)
  | type_float (id : Word) (bits : Word)
  | type_vector (id : Word) (component_type_id : Word) (size : VectorSize)
  | type_matrix (id : Word) (column_type_id : Word) (columns : VectorSize)
  | type_pointer (id : Word) (storage_class : SpvStorageClass) (type_id : Word)
  | type_function (id : Word) (return_type_id : Word) (parameter_ids : List Word)
  | type_struct (id : Word) (member_ids : List Word)
  | type_sampler (id : Word)
  | constant (type_id : Word) (id : Word) (operand_words : List Word)
  | constant_true (type_id : Word) (id : Word)
  | constant_false (type_id : Word) (id : Word)
  | constant_composite (type_id : Word) (id : Word) (constituent_ids : List Word)
  | constant_null (type_id : Word) (id : Word)
deriving DecidableEq, Repr

/-- Pack a byte list into SPIR-V words, four bytes per word, little-endian
(missing trailing bytes are zero padding). -/
def pack4 : List Nat → List Word
  | [] => []
  | [a] => [a]
  | [a, b] => [a + 256 * b]
  | [a, b, c] => [a + 256 * b + 65536 * c]
  | a :: b :: c :: d :: t => (a + 256 * b + 65536 * c + 16777216 * d) :: pack4 t

/-- Modelled from the spec: SPIR-V string literal encoding — UTF-8 bytes
followed by a nul terminator, packed little-endian into words (the strings
the writer emits are ASCII, so code points are the bytes). -/
def string_words (s : String) : List Word :=
  pack4 (s.toList.map Char.toNat ++ [0])

/-- Modelled from the spec: opcode and operand words of each instruction,
from the SPIR-V specification ("the per-opcode bit packing is treated as a
helper library"). -/
def Instruction.opcode_operands : Instruction → Word × List Word
  | .label id => (248, [id])
  | .variable' pt id cls init => (59, [pt, id, cls.val] ++ init.toList)
  | .load ty id ptr access => (61, [ty, id, ptr] ++ access.toList)
  | .store ptr value access => (62, [ptr, value] ++ access.toList)
  | .composite_construct ty id parts => (80, [ty, id] ++ parts)
  | .function_parameter ty id => (55, [ty, id])
  | .function' ret id control fty => (54, [ret, id, control, fty])
  | .function_end => (56, [])
  | .branch target => (249, [target])
  | .entry_point model fid nm interface_ids =>
      (15, [model.val, fid] ++ string_words nm ++ interface_ids)
  | .execution_mode fid mode args => (16, [fid, mode.val] ++ args)
  | .ext_inst_import id nm => (11, [id] ++ string_words nm)
  | .capability cap => (17, [cap.val])
  | .source language version => (3, [language, version])
  | .name id nm => (5, [id] ++ string_words nm)
  | .member_name id member nm => (6, [id, member] ++ string_words nm)
  | .memory_model addressing memory => (14, [addressing, memory])
  | .extension nm => (10, string_words nm)
  | .decorate id dec operands => (71, [id, dec.val] ++ operands)
  | .member_decorate id member dec operands => (72, [id, member, dec.val] ++ operands)
  | .type_void id => (19, [id])
  | .type_bool id => (20, [id])
  | .type_int id bits signedness => (21, [id, bits, signedness.val])
  | .type_float id bits => (22, [id, bits])
  | .type_vector id comp size => (23, [id, comp, size.val])
  | .type_matrix id col columns => (24, [id, col, columns.val])
  | .type_pointer id cls ty => (32, [id, cls.val, ty])
  | .type_function id ret params => (33, [id, ret] ++ params)
  | .type_struct id members => (30, [id] ++ members)
  | .type_sampler id => (26, [id])
  | .constant ty id ws => (43, [ty, id] ++ ws)
  | .constant_true ty id => (41, [ty, id])
  | .constant_false ty id => (42, [ty, id])
  | .constant_composite ty id parts => (44, [ty, id] ++ parts)
  | .constant_null ty id => (46, [ty, id])

/-- `Instruction::to_words`: the length-prefixed word stream of one
instruction (first word is `wordCount << 16 | opcode`). -/
def Instruction.to_words (i : Instruction) : List Word :=
  let p := i.opcode_operands
  (((p.2.length + 1) <<< 16) ||| p.1) :: p.2

/-- `true` exactly for `OpVariable` instructions (used to state that no
`OpVariable` is emitted for pruned globals). -/
def Instruction.is_op_variable : Instruction → Bool
  | .variable' _ _ _ _ => true
  | _ => false

/-- The result id of an `OpVariable` instruction. -/
def Instruction.op_variable_id : Instruction → Option Word
  | .variable' _ id _ _ => some id
  | _ => none

/-! ## The IR fragment (collaborator contract)

The IR lives outside the writer's file and is modelled from the spec
(section 6, "Input (collaborator contract)").  The fragment carries the
type formers the claims exercise: scalars, vectors, matrices, pointers and
structs.  Handles are indices into the arenas (`Handle::index`). -/

/-- Modelled from the spec: a struct member (`name`, `ty`, `binding`,
`offset`). -/
structure StructMember where
  name : Option String
  ty : Nat
  binding : Option Binding
  offset : Word
deriving DecidableEq, Repr

/-- Modelled from the spec: the IR type variants the writer core
distinguishes (`crate::TypeInner`), restricted to the non-image fragment.
`top_level` marks struct types that receive the `Block` decoration. -/
inductive TypeInner where
  | Scalar (kind : ScalarKind) (width : Nat)
  | Vector (size : VectorSize) (kind : ScalarKind) (width : Nat)
  | Matrix (columns : VectorSize) (rows : VectorSize) (width : Nat)
  | Pointer (base : Nat) (storage_class : IrStorageClass)
  | Struct (top_level : Bool) (members : List StructMember)
deriving DecidableEq, Repr

/-- `TypeInner::is_handle` (true for images and samplers; the fragment has
neither, so it is `false` on every variant here). -/
def TypeInner.is_handle : TypeInner → Bool
  | _ => false

/-- Modelled from the spec: an IR type: optional name plus `TypeInner`. -/
structure Ty where
  name : Option String
  inner : TypeInner
deriving DecidableEq, Repr

/-- Modelled from the spec: IR constants: scalar (width, value) or
composite (type handle, component constant handles), optionally named. -/
inductive ConstantInner where
  | Scalar (width : Nat) (value : ScalarValue)
  | Composite (ty : Nat) (components : List Nat)
deriving DecidableEq, Repr

structure Constant where
  name : Option String
  inner : ConstantInner
deriving DecidableEq, Repr

/-- Modelled from the spec: an IR resource binding (`group`, `binding`). -/
structure ResourceBinding where
  group : Word
  binding : Word
deriving DecidableEq, Repr

/-- Modelled from the spec: an IR global variable; the Rust field `class`
is called `storage_class` here (`class` is a Lean keyword). -/
structure IrGlobalVariable where
  name : Option String
  storage_class : IrStorageClass
  binding : Option ResourceBinding
  ty : Nat
  init : Option Nat
deriving DecidableEq, Repr

/-- Modelled from the spec: an IR function-local variable. -/
structure IrLocalVariable where
  name : Option String
  ty : Nat
  init : Option Nat
deriving DecidableEq, Repr

/-- Modelled from the spec: an IR function argument. -/
structure IrFunctionArgument where
  name : Option String
  ty : Nat
  binding : Option Binding
deriving DecidableEq, Repr

/-- Modelled from the spec: an IR function result. -/
structure FunctionResult where
  ty : Nat
  binding : Option Binding
deriving DecidableEq, Repr

/-- Modelled from the spec: one expression slot of a function, reduced to
what the writer core observes of the black-box expression translator: the
`needs_pre_emit` flag and the prelude instructions
`cache_expression_value` materializes for it. -/
structure TranslatedExpr where
  needs_pre_emit : Bool
  prelude_insts : List Instruction
deriving DecidableEq, Repr

/-- Modelled from the spec: the outcome of the black-box statement
translator (`BlockContext::write_block`) on a function body: either the
main-block instruction sequence it produces, or the error it reports.  The
spec treats per-expression code generation as an external collaborator, so
a body is represented by that observable outcome. -/
structure TranslatedBody where
  ok : Bool
  err : String
  insts : List Instruction
deriving DecidableEq, Repr

/-- Modelled from the spec: an IR function. -/
structure IrFunction where
  name : Option String
  arguments : List IrFunctionArgument
  result : Option FunctionResult
  local_variables : List IrLocalVariable
  expressions : List TranslatedExpr
  body : TranslatedBody
deriving DecidableEq, Repr

/-- IR shader stages. -/
inductive ShaderStage where
  | Vertex
  | Fragment
  | Compute
deriving DecidableEq, Repr

/-- Modelled from the spec: an IR entry point. -/
structure EntryPoint where
  stage : ShaderStage
  name : String
  workgroup_size : List Word
  function : IrFunction
deriving DecidableEq, Repr

/-- Modelled from the spec: the IR module arenas the writer reads. -/
structure Module where
  types : List Ty
  constants : List Constant
  global_variables : List IrGlobalVariable
  functions : List IrFunction
  entry_points : List EntryPoint
deriving DecidableEq, Repr

/-- Modelled from the spec: per-function liveness info (`FunctionInfo`):
for every global handle, whether the function's use-set for it is
non-empty (`info[handle].is_empty()` is the negation). -/
structure FunctionInfo where
  global_uses : List Bool
deriving DecidableEq, Repr

/-- Modelled from the spec: `FunctionInfo::dominates_global_use` — every
global the other function uses is also used by `self`. -/
def FunctionInfo.dominates_global_use (self other : FunctionInfo) : Bool :=
  (self.global_uses.zip other.global_uses).all fun p => !p.2 || p.1

/-- Modelled from the spec: module-level analysis results: liveness for
each function and each entry point. -/
structure ModuleInfo where
  functions : List FunctionInfo
  entry_points : List FunctionInfo
deriving DecidableEq, Repr

/-- `ModuleInfo::get_entry_point`. -/
def ModuleInfo.get_entry_point (info : ModuleInfo) (index : Nat) : FunctionInfo :=
  info.entry_points.getD index ⟨[]⟩

/-! ## Writer-side lookup keys and layout buffers -/

/-- Modelled from the spec: structural (anonymous) type keys
(`LocalType`), fragment matching the IR fragment.  `Value` covers scalars,
vectors and value pointers, exactly as in the source. -/
inductive LocalType where
  | Value (vector_size : Option VectorSize) (kind : ScalarKind) (width : Nat)
      (pointer_class : Option SpvStorageClass)
  | Matrix (columns : VectorSize) (rows : VectorSize) (width : Nat)
  | Pointer (base : Nat) (storage_class : SpvStorageClass)
  | Sampler
deriving DecidableEq, Repr

/-- Modelled from the spec: a type-interning key — a named IR handle or a
structural `LocalType`. -/
inductive LookupType where
  | Handle (handle : Nat)
  | Local (local_type : LocalType)
deriving DecidableEq, Repr

/-- Modelled from the spec: `helpers::make_local` — the `LocalType`
projection of a `TypeInner`, `none` for composites (structs). -/
def make_local : TypeInner → Option LocalType
  | .Scalar kind width => some (.Value none kind width none)
  | .Vector size kind width => some (.Value (some size) kind width none)
  | .Matrix columns rows width => some (.Matrix columns rows width)
  | .Pointer base storage_class => some (.Pointer base (map_storage_class storage_class))
  | .Struct _ _ => none

/-- Modelled from the spec: function-type interning key (ordered). -/
structure LookupFunctionType where
  parameter_type_ids : List Word
  return_type_id : Word
deriving DecidableEq, Repr

/-- Modelled from the spec: the SPIR-V logical layout — one buffer per
mandatory section, in the mandated order.  The Rust buffers hold serialized
words; here each buffer holds the instructions whose serializations were
appended, in order (`in_words` serializes them). -/
structure LogicalLayout where
  capabilities : List Instruction := []
  extensions : List Instruction := []
  ext_inst_imports : List Instruction := []
  memory_model : List Instruction := []
  entry_points : List Instruction := []
  execution_modes : List Instruction := []
  debugs : List Instruction := []
  annotations : List Instruction := []
  declarations : List Instruction := []
  function_definitions : List Instruction := []
deriving DecidableEq, Repr

/-- Modelled from the spec: `LogicalLayout::in_words` — serialize the
sections in SPIR-V's mandated order. -/
def LogicalLayout.in_words (l : LogicalLayout) (words : List Word) : List Word :=
  words
    ++ l.capabilities.flatMap Instruction.to_words
    ++ l.extensions.flatMap Instruction.to_words
    ++ l.ext_inst_imports.flatMap Instruction.to_words
    ++ l.memory_model.flatMap Instruction.to_words
    ++ l.entry_points.flatMap Instruction.to_words
    ++ l.execution_modes.flatMap Instruction.to_words
    ++ l.debugs.flatMap Instruction.to_words
    ++ l.annotations.flatMap Instruction.to_words
    ++ l.declarations.flatMap Instruction.to_words
    ++ l.function_definitions.flatMap Instruction.to_words

/-- Modelled from the spec: the writer-side record for one emitted global:
its variable id and the per-function id of its loaded value for opaque
handles. -/
structure GlobalVariable where
  id : Word
  handle_id : Word
deriving DecidableEq, Repr

/-- Modelled from the spec: the dummy record stored for globals pruned by
entry-point selection, preserving index alignment with the IR arena. -/
def GlobalVariable.dummy : GlobalVariable := ⟨0, 0⟩

/-- Modelled from the spec: the record for an actually-emitted global. -/
def GlobalVariable.new (id : Word) : GlobalVariable := ⟨id, 0⟩

/-- Modelled from the spec: `GlobalVariable::reset_for_function` clears the
stale per-function handle id. -/
def GlobalVariable.reset_for_function (gv : GlobalVariable) : GlobalVariable :=
  { gv with handle_id := 0 }

/-- Modelled from the spec: a function-scope variable: id plus its
declaring `OpVariable` (emitted in the function's first block). -/
structure LocalVariable where
  id : Word
  instruction : Instruction
deriving DecidableEq, Repr

/-- Modelled from the spec: a compiled function parameter: its
`OpFunctionParameter` instruction and, for opaque handle parameters, the id
of the loaded value (0 otherwise). -/
structure FunctionArgument where
  instruction : Instruction
  handle_id : Word
deriving DecidableEq, Repr

/-- Modelled from the spec: a SPIR-V basic block under construction. -/
structure Block where
  label_id : Word
  body : List Instruction
deriving DecidableEq, Repr

/-- `Block::new`. -/
def Block.new (label_id : Word) : Block := ⟨label_id, []⟩

/-- Modelled from the spec: the synthesized entry-point interface record:
loads of the input varyings and the output-variable sinks. -/
structure ResultMember where
  id : Word
  type_id : Word
  built_in : Option BuiltIn
deriving DecidableEq, Repr

structure EntryPointContext where
  argument_ids : List Word
  results : List ResultMember
deriving DecidableEq, Repr

/-- Modelled from the spec: a SPIR-V function under construction
(signature, parameters, first-block locals, blocks, optional entry-point
context). -/
structure SpvFunction where
  signature : Option Instruction := none
  parameters : List FunctionArgument := []
  variables' : List (Nat × LocalVariable) := []
  blocks : List Block := []
  entry_point_context : Option EntryPointContext := none
deriving DecidableEq, Repr

/-- `Function::to_words` (serialization order: signature, parameters, then
each block as label, first-block locals, body), producing the instruction
sequence whose words are appended to the function-definitions buffer. -/
def SpvFunction.to_insts (f : SpvFunction) : List Instruction :=
  f.signature.toList
    ++ f.parameters.map (·.instruction)
    ++ f.blocks.enum.flatMap fun p =>
        Instruction.label p.2.label_id
          :: ((if p.1 = 0 then f.variables'.map (·.2.instruction) else []) ++ p.2.body)

/-- `Function::consume`: terminate a block and append it. -/
def SpvFunction.consume (f : SpvFunction) (b : Block) (terminator : Instruction) :
    SpvFunction :=
  { f with blocks := f.blocks ++ [{ b with body := b.body ++ [terminator] }] }

/-! ## Writer state, options and errors -/

/-- `WriterFlags`. -/
structure WriterFlags where
  debug : Bool
  label_varyings : Bool
  force_point_size : Bool
deriving DecidableEq, Repr

/-- The writer's error type (`Error`).  `InvariantViolation` stands for the
`unreachable!`/`unwrap` aborts on IR that breaks the validation contract;
the writer never returns it for validated IR. -/
inductive Error where
  | UnsupportedVersion (major : Nat) (minor : Nat)
  | MissingCapabilities (what : String) (capabilities : List Capability)
  | EntryPointNotFound
  | TranslatorError (msg : String)
  | InvariantViolation (msg : String)
deriving DecidableEq, Repr

/-- The option-derived configuration of a `Writer`.  In the source these
are fields of `Writer` that no method ever assigns: `reset` copies
`flags` and `bounds_check_policies`, moves `capabilities_available` out and
back, and `physical_layout.clone().recycle()` keeps the version word while
zeroing `bound`.  They are therefore threaded as a read-only value. -/
structure Config where
  version : Word
  flags : WriterFlags
  bounds_check_policies : Nat
  capabilities_available : Option (List Capability)
deriving DecidableEq, Repr

/-- The mutable state of a `Writer`: everything `reset` re-initializes.
`bound` is the `PhysicalLayout` bound field (its version word lives in
`Config`); `id_gen` holds the last issued id (`IdGenerator::next`
pre-increments, so ids start at 1 and `id_gen` is 0 when none was
issued). -/
structure WriterState where
  bound : Word
  logical_layout : LogicalLayout
  id_gen : Nat
  capabilities_used : List Capability
  debugs : List Instruction
  annotations : List Instruction
  void_type : Word
  lookup_type : List (LookupType × Word)
  lookup_function : List (Nat × Word)
  lookup_function_type : List (LookupFunctionType × Word)
  constant_ids : List Word
  cached_constants : List ((ScalarValue × Nat) × Word)
  global_variables : List GlobalVariable
  saved_cached : List Word
  gl450_ext_inst_id : Word
  temp_list : List Word
deriving DecidableEq, Repr

/-- Association-list lookup, the model of `FastHashMap` lookup (keys are
unique because insertion happens only after a failed lookup). -/
def lookupA {α β : Type} [DecidableEq α] : List (α × β) → α → Option β
  | [], _ => none
  | (a, b) :: t, k => if a = k then some b else lookupA t k

/-- `FastHashSet` insertion: membership-preserving insert-if-absent (a hash
set exposes membership, not a specified iteration order). -/
def capInsert (l : List Capability) (c : Capability) : List Capability :=
  if c ∈ l then l else l ++ [c]

/-- `Options` (`lang_version`, `capabilities`, `flags`,
`bounds_check_policies` — the policies are consumed by the expression
translator and opaque to the core, hence a bare `Nat`). -/
structure Options where
  lang_version : Nat × Nat
  capabilities : Option (List Capability)
  flags : WriterFlags
  bounds_check_policies : Nat
deriving DecidableEq, Repr

/-- `PipelineOptions`. -/
structure PipelineOptions where
  shader_stage : ShaderStage
  entry_point : String
deriving DecidableEq, Repr

/-- The default options (`Options::default()`): version (1, 0), no
capability restriction, no flags. -/
def Options.default : Options :=
  { lang_version := (1, 0), capabilities := none
    flags := ⟨false, false, false⟩, bounds_check_policies := 0 }

/-- The freshly initialized writer state shared by `Writer::new` and
`reset`: a fresh id generator from which the GLSL.std.450 import id (1) and
the void type id (2) are immediately drawn, `Shader` seeded into
`capabilities_used`, and every table and buffer empty;
`PhysicalLayout::new` starts with `bound = 0`. -/
def initial_state : WriterState :=
  { bound := 0
    logical_layout := {}
    id_gen := 2
    capabilities_used := [.Shader]
    debugs := []
    annotations := []
    void_type := 2
    lookup_type := []
    lookup_function := []
    lookup_function_type := []
    constant_ids := []
    cached_constants := []
    global_variables := []
    saved_cached := []
    gl450_ext_inst_id := 1
    temp_list := []
  }

/-- `Writer::new`: reject `major != 1` with `UnsupportedVersion`, compute
the raw version word `(major << 16) | (minor << 8)`, and build the initial
state. -/
def Writer.new (options : Options) : Except Error (Config × WriterState) :=
  let (major, minor) := options.lang_version
  if major ≠ 1 then
    .error (.UnsupportedVersion major minor)
  else
    .ok
      ({ version := (major <<< 16) ||| (minor <<< 8)
         flags := options.flags
         bounds_check_policies := options.bounds_check_policies
         capabilities_available := options.capabilities }, initial_state)

/-- `Writer::reset`: every field not determined by the `Options` is
restored to its initial value (recycled buffers are cleared, the id
generator is replaced and re-seeds the GLSL.std.450 and void ids, `Shader`
is re-inserted); the option-derived `Config` is preserved unchanged.  The
old state is discarded entirely, which the unused argument makes
explicit. -/
def reset (_cfg : Config) (_self : WriterState) : WriterState :=
  initial_state

/-! ## Small state helpers (the `to_words(&mut buffer)` / `push` idioms) -/

/-- Append one instruction's words to the declarations buffer. -/
def push_decl (st : WriterState) (i : Instruction) : WriterState :=
  { st with logical_layout.declarations := st.logical_layout.declarations ++ [i] }

/-- `self.debugs.push(..)`. -/
def push_debug (st : WriterState) (i : Instruction) : WriterState :=
  { st with debugs := st.debugs ++ [i] }

/-- `self.annotations.push(..)`. -/
def push_annot (st : WriterState) (i : Instruction) : WriterState :=
  { st with annotations := st.annotations ++ [i] }

/-- `self.id_gen.next()`: pre-increment, returning the new value; `id_gen`
holds the last issued id. -/
def next_id (st : WriterState) : WriterState × Word :=
  ({ st with id_gen := st.id_gen + 1 }, st.id_gen + 1)

/-- The recurring debug-name idiom
(`if self.flags.contains(..) { if let Some(name) { self.debugs.push(name(..)) } }`):
push an `OpName` when the condition holds and a name is present. -/
def push_name_if (cond : Bool) (st : WriterState) (id : Word)
    (nm : Option String) : WriterState :=
  if cond then
    match nm with
    | some nm => push_debug st (.name id nm)
    | none => st
  else st

/-- The placeholder used when a handle indexes outside an arena; the Rust
arena indexing would panic there, which validated IR never triggers. -/
def dummy_ty : Ty := ⟨none, .Scalar .Bool 1⟩

/-! ## `Writer` methods, translated from `src/back/spv/writer.rs` -/

/-- `Writer::require_any`: empty list is a no-op success; with no
availability restriction the first capability is selected; otherwise the
first listed capability present in `capabilities_available` is selected,
and if none is, `MissingCapabilities(what, capabilities)` is returned with
the state untouched.  The selected capability is inserted into
`capabilities_used`. -/
def require_any (cfg : Config) (st : WriterState) (what : String)
    (capabilities : List Capability) : Except Error WriterState :=
  match capabilities with
  | [] => .ok st
  | first :: _ =>
    let selected : Except Error Capability :=
      match cfg.capabilities_available with
      | none => .ok first
      | some available =>
        match capabilities.find? (fun cap => available.contains cap) with
        | some cap => .ok cap
        | none => .error (.MissingCapabilities what capabilities)
    match selected with
    | .error e => .error e
    | .ok selected =>
      .ok { st with capabilities_used := capInsert st.capabilities_used selected }

/-- `Writer::make_scalar` (`BITS_PER_BYTE = 8`): build the scalar type
instruction, registering the `Int8`/`Int16`/`Int64`/`Float64` capability a
non-32-bit width implies. -/
def make_scalar (st : WriterState) (id : Word) (kind : ScalarKind) (width : Nat) :
    WriterState × Instruction :=
  let bits := width * 8
  match kind with
  | .Sint | .Uint =>
    let signedness := if kind = ScalarKind.Sint then Signedness.Signed else Signedness.Unsigned
    let cap : Option Capability :=
      match bits with
      | 8 => some .Int8
      | 16 => some .Int16
      | 64 => some .Int64
      | _ => none
    let st :=
      match cap with
      | some c => { st with capabilities_used := capInsert st.capabilities_used c }
      | none => st
    (st, .type_int id bits signedness)
  | .Float =>
    let st :=
      if bits = 64 then
        { st with capabilities_used := capInsert st.capabilities_used .Float64 }
      else st
    (st, .type_float id bits)
  | .Bool => (st, .type_bool id)

/-- The body of `Writer::write_type_declaration_local`, with the recursive
`get_type_id` calls abstracted as `gti` (tied by `get_type_id_f` below so
that the recursion is structural in an explicit depth bound). -/
def write_type_declaration_local_f
    (gti : WriterState → LookupType → WriterState × Word)
    (st : WriterState) (id : Word) (local_ty : LocalType) : WriterState :=
  match local_ty with
  | .Value none kind width none =>
    let p := make_scalar st id kind width
    push_decl p.1 p.2
  | .Value (some size) kind width none =>
    let (st, scalar_id) := gti st (.Local (.Value none kind width none))
    push_decl st (.type_vector id scalar_id size)
  | .Matrix columns rows width =>
    let (st, vector_id) := gti st (.Local (.Value (some rows) .Float width none))
    push_decl st (.type_matrix id vector_id columns)
  | .Pointer base cls =>
    let (st, type_id) := gti st (.Handle base)
    push_decl st (.type_pointer id cls type_id)
  | .Value vector_size kind width (some cls) =>
    let (st, type_id) := gti st (.Local (.Value vector_size kind width none))
    push_decl st (.type_pointer id cls type_id)
  | .Sampler => push_decl st (.type_sampler id)

/-- The body of `Writer::get_type_id`, with the recursive call (through
`write_type_declaration_local`) abstracted as `rec_`: return the interned
id if present; otherwise a vacant `Handle` key is `unreachable!` in the
source (handle ids are pre-populated by the arena pass) and yields the
invalid id 0 here, and a vacant `Local` key allocates a fresh id, inserts
it, and declares the type. -/
def get_type_id_step (rec_ : WriterState → LookupType → WriterState × Word)
    (st : WriterState) (lookup_ty : LookupType) : WriterState × Word :=
  match lookupA st.lookup_type lookup_ty with
  | some id => (st, id)
  | none =>
    match lookup_ty with
    | .Handle _ => (st, 0)
    | .Local local_ty =>
      let (st, id) := next_id st
      let st := { st with lookup_type := (lookup_ty, id) :: st.lookup_type }
      (write_type_declaration_local_f rec_ st id local_ty, id)

/-- `Writer::get_type_id` with an explicit recursion-depth bound so the
recursion (`get_type_id` → `write_type_declaration_local` → `get_type_id`
on a strictly simpler key) is structural: the nesting depth of any
`LocalType` is at most 3, so the bound 4 used by the wrapper below is never
exhausted. -/
def get_type_id_f : Nat → WriterState → LookupType → WriterState × Word
  | 0, st, _ => (st, 0)
  | fuel + 1, st, lookup_ty => get_type_id_step (get_type_id_f fuel) st lookup_ty

/-- `Writer::get_type_id`. -/
def get_type_id (st : WriterState) (lookup_ty : LookupType) : WriterState × Word :=
  get_type_id_f 4 st lookup_ty

/-- `Writer::write_type_declaration_local`. -/
def write_type_declaration_local (st : WriterState) (id : Word) (local_ty : LocalType) :
    WriterState :=
  write_type_declaration_local_f (get_type_id_f 3) st id local_ty

/-- `Writer::get_pointer_id`: a pointer-typed pointee returns its own id
(SPIR-V forbids pointer-to-pointer); otherwise intern
`Pointer{base, class}`.  The Rust signature is fallible but constructs no
error, so the translation is infallible. -/
def get_pointer_id (st : WriterState) (arena : List Ty) (handle : Nat)
    (cls : SpvStorageClass) : WriterState × Word :=
  let (st, ty_id) := get_type_id st (.Handle handle)
  match (arena.getD handle dummy_ty).inner with
  | .Pointer _ _ => (st, ty_id)
  | _ =>
    let lookup_type := LookupType.Local (.Pointer handle cls)
    match lookupA st.lookup_type lookup_type with
    | some id => (st, id)
    | none =>
      let (st, id) := next_id st
      let st := push_decl st (.type_pointer id cls ty_id)
      ({ st with lookup_type := (lookup_type, id) :: st.lookup_type }, id)

/-- `Writer::get_float_type_id` (the canonical 32-bit float). -/
def get_float_type_id (st : WriterState) : WriterState × Word :=
  get_type_id st (.Local (.Value none .Float 4 none))

/-- `Writer::get_float_pointer_type_id`. -/
def get_float_pointer_type_id (st : WriterState) (cls : SpvStorageClass) :
    WriterState × Word :=
  let lookup_type := LookupType.Local (.Value none .Float 4 (some cls))
  match lookupA st.lookup_type lookup_type with
  | some id => (st, id)
  | none =>
    let (st, id) := next_id st
    let (st, ty_id) := get_float_type_id st
    let st := push_decl st (.type_pointer id cls ty_id)
    ({ st with lookup_type := (lookup_type, id) :: st.lookup_type }, id)

/-- `Writer::decorate`. -/
def decorate (st : WriterState) (id : Word) (decoration : Decoration)
    (operands : List Word) : WriterState :=
  push_annot st (.decorate id decoration operands)

/-- `Writer::request_image_capabilities`: classifies image types and gates
their capabilities; on the non-image fragment every type falls through to
success. -/
def request_image_capabilities (st : WriterState) (_inner : TypeInner) :
    Except Error WriterState :=
  .ok st

/-- The member loop of the struct arm of
`Writer::write_type_declaration_arena` (`decorate_layout` is `true` in the
source): `Offset` member-decorations, debug member names, `ColMajor` and
`MatrixStride` for matrix members, and interning of each member type. -/
def struct_member_loop (cfg : Config) (arena : List Ty) (struct_id : Word) :
    WriterState × List Word → List (Nat × StructMember) → WriterState × List Word
  | acc, [] => acc
  | (st, member_ids), (index, member) :: rest =>
    let st := push_annot st (.member_decorate struct_id index .Offset [member.offset])
    let st :=
      if cfg.flags.debug then
        match member.name with
        | some nm => push_debug st (.member_name struct_id index nm)
        | none => st
      else st
    -- The matrix decorations also go on arrays of matrices; the fragment
    -- has no arrays, so the member's own type is inspected.
    let member_array_subty_inner := (arena.getD member.ty dummy_ty).inner
    let st :=
      match member_array_subty_inner with
      | .Matrix columns _ width =>
        let byte_stride :=
          match columns with
          | .Bi => 2 * width
          | .Tri | .Quad => 4 * width
        let st := push_annot st (.member_decorate struct_id index .ColMajor [])
        push_annot st (.member_decorate struct_id index .MatrixStride [byte_stride])
      | _ => st
    let (st, member_id) := get_type_id st (.Handle member.ty)
    struct_member_loop cfg arena struct_id (st, member_ids ++ [member_id]) rest

/-- `Writer::write_type_declaration_arena` on the fragment: types with a
`LocalType` projection are interned (with image capability gating, vacuous
here); structs get `Block`/member decorations and an `OpTypeStruct`; in
every case a `Handle(handle)` alias for the resulting id is published and a
debug name emitted when the `DEBUG` flag is set. -/
def write_type_declaration_arena (cfg : Config) (st : WriterState) (arena : List Ty)
    (handle : Nat) : Except Error (WriterState × Word) :=
  let ty := arena.getD handle dummy_ty
  let emitted : Except Error (WriterState × Word) :=
    match make_local ty.inner with
    | some local_ty =>
      match lookupA st.lookup_type (.Local local_ty) with
      | some id => .ok (st, id)
      | none =>
        let (st, id) := next_id st
        let st := { st with lookup_type := (.Local local_ty, id) :: st.lookup_type }
        let st := write_type_declaration_local st id local_ty
        match request_image_capabilities st ty.inner with
        | .error e => .error e
        | .ok st => .ok (st, id)
    | none =>
      match ty.inner with
      | .Struct top_level members =>
        let (st, id) := next_id st
        let st := if top_level then decorate st id .Block [] else st
        let (st, member_ids) := struct_member_loop cfg arena id (st, []) members.enum
        .ok (push_decl st (.type_struct id member_ids), id)
      | _ =>
        -- Scalars, vectors, matrices and pointers all have `LocalType`
        -- projections; reaching here is `unreachable!` in the source.
        .error (.InvariantViolation "non-composite type without LocalType projection")
  match emitted with
  | .error e => .error e
  | .ok (st, id) =>
    let st := { st with lookup_type := (.Handle handle, id) :: st.lookup_type }
    let st := push_name_if cfg.flags.debug st id ty.name
    .ok (st, id)

/-- The operand words computed by the `match *value` of
`Writer::write_constant_scalar`.  Rust's `val as u32` truncation is
`% 2^32`; the arithmetic shift `val >> 32` on `i64` is Euclidean division
by the positive constant `2^32`; on `u64` it is plain division.  Widths
other than 4 and 8 hit `unreachable!` in the source (they yield `[]`
here), and booleans do not take this path — they are emitted as
`OpConstantTrue`/`OpConstantFalse`. -/
def scalar_constant_words : ScalarValue → Nat → List Word
  | .Sint val, 4 => [(val % 4294967296).toNat]
  | .Sint val, 8 => [(val / 4294967296 % 4294967296).toNat, (val % 4294967296).toNat]
  | .Uint val, 4 => [val % 4294967296]
  | .Uint val, 8 => [val / 4294967296 % 4294967296, val % 4294967296]
  | .Float _ bits32, 4 => [bits32]
  | .Float bits64 _, 8 => [bits64 / 4294967296 % 4294967296, bits64 % 4294967296]
  | _, _ => []

/-- `Writer::write_constant_scalar`: optional debug name, scalar type
lookup, then the constant instruction (`OpConstantTrue`/`False` for
booleans, `OpConstant` with `scalar_constant_words` otherwise). -/
def write_constant_scalar (cfg : Config) (st : WriterState) (id : Word)
    (value : ScalarValue) (width : Nat) (debug_name : Option String) : WriterState :=
  let st := push_name_if cfg.flags.debug st id debug_name
  let (st, type_id) := get_type_id st (.Local (.Value none value.scalar_kind width none))
  let instruction :=
    match value with
    | .Bool true => Instruction.constant_true type_id id
    | .Bool false => Instruction.constant_false type_id id
    | v => Instruction.constant type_id id (scalar_constant_words v width)
  push_decl st instruction

/-- `Writer::get_constant_scalar`: the scalar-constant cache — return the
cached id for `(value, width)`, or allocate a fresh id, emit the constant,
and record it. -/
def get_constant_scalar (cfg : Config) (st : WriterState) (value : ScalarValue)
    (width : Nat) : WriterState × Word :=
  match lookupA st.cached_constants (value, width) with
  | some id => (st, id)
  | none =>
    let (st, id) := next_id st
    let st := write_constant_scalar cfg st id value width none
    ({ st with cached_constants := ((value, width), id) :: st.cached_constants }, id)

/-- `Writer::write_constant_composite`: resolve each component id from the
constant-id table and emit `OpConstantComposite` (the Rust signature is
fallible but constructs no error). -/
def write_constant_composite (st : WriterState) (id : Word) (ty : Nat)
    (components : List Nat) : WriterState :=
  let constituent_ids := components.map fun constituent => st.constant_ids.getD constituent 0
  let (st, type_id) := get_type_id st (.Handle ty)
  push_decl st (.constant_composite type_id id constituent_ids)

/-- `Writer::get_function_type`: intern `{return, params}` keys. -/
def get_function_type (st : WriterState) (lookup_function_type : LookupFunctionType) :
    WriterState × Word :=
  match lookupA st.lookup_function_type lookup_function_type with
  | some id => (st, id)
  | none =>
    let (st, id) := next_id st
    let st := push_decl st
      (.type_function id lookup_function_type.return_type_id
        lookup_function_type.parameter_type_ids)
    ({ st with
        lookup_function_type := (lookup_function_type, id) :: st.lookup_function_type }, id)

/-- `Writer::write_varying`: emit one interface `OpVariable` in the given
class and decorate it per its binding (location/interpolation/sampling or
built-in, with the capability gates of the source). -/
def write_varying (cfg : Config) (st : WriterState) (ir_module : Module)
    (cls : SpvStorageClass) (debug_name : Option String) (ty : Nat)
    (binding : Binding) : Except Error (WriterState × Word) :=
  let (st, id) := next_id st
  let (st, pointer_type_id) := get_pointer_id st ir_module.types ty cls
  let st := push_decl st (.variable' pointer_type_id id cls none)
  let st := push_name_if (cfg.flags.debug && cfg.flags.label_varyings) st id debug_name
  match binding with
  | .Location location interpolation sampling =>
    let st := decorate st id .Location [location]
    let st :=
      match interpolation with
      | none | some .Perspective => st
      | some .Flat => decorate st id .Flat []
      | some .Linear => decorate st id .NoPerspective []
    match sampling with
    | none | some .Center => .ok (st, id)
    | some .Centroid => .ok (decorate st id .Centroid [], id)
    | some .Sample =>
      match require_any cfg st "per-sample interpolation" [.SampleRateShading] with
      | .error e => .error e
      | .ok st => .ok (decorate st id .Sample [], id)
  | .BuiltIn built_in =>
    let mapped : Except Error (WriterState × SpvBuiltIn) :=
      match built_in with
      | .Position => .ok (st, if cls = SpvStorageClass.Output then .Position else .FragCoord)
      | .ViewIndex =>
        match require_any cfg st "`view_index` built-in" [.MultiView] with
        | .error e => .error e
        | .ok st => .ok (st, .ViewIndex)
      | .BaseInstance => .ok (st, .BaseInstance)
      | .BaseVertex => .ok (st, .BaseVertex)
      | .ClipDistance => .ok (st, .ClipDistance)
      | .CullDistance => .ok (st, .CullDistance)
      | .InstanceIndex => .ok (st, .InstanceIndex)
      | .PointSize => .ok (st, .PointSize)
      | .VertexIndex => .ok (st, .VertexIndex)
      | .FragDepth => .ok (st, .FragDepth)
      | .FrontFacing => .ok (st, .FrontFacing)
      | .PrimitiveIndex =>
        match require_any cfg st "`primitive_index` built-in" [.Geometry] with
        | .error e => .error e
        | .ok st => .ok (st, .PrimitiveId)
      | .SampleIndex =>
        match require_any cfg st "`sample_index` built-in" [.SampleRateShading] with
        | .error e => .error e
        | .ok st => .ok (st, .SampleId)
      | .SampleMask => .ok (st, .SampleMask)
      | .GlobalInvocationId => .ok (st, .GlobalInvocationId)
      | .LocalInvocationId => .ok (st, .LocalInvocationId)
      | .LocalInvocationIndex => .ok (st, .LocalInvocationIndex)
      | .WorkGroupId => .ok (st, .WorkgroupId)
      | .WorkGroupSize => .ok (st, .WorkgroupSize)
      | .NumWorkGroups => .ok (st, .NumWorkgroups)
    match mapped with
    | .error e => .error e
    | .ok (st, spv_built_in) => .ok (decorate st id .BuiltIn [spv_built_in.val], id)

/-- `Writer::write_global_variable`: allocate the id, map the storage
class, resolve the initializer word, build the `OpVariable` (returned to
the caller, which appends it), and push the
`NonReadable`/`NonWritable`/`DescriptorSet`/`Binding` decorations.  The
storage-image arm of the `storage_access` match is vacuous on the
non-image fragment.  The Rust signature is fallible but constructs no
error. -/
def write_global_variable (cfg : Config) (st : WriterState) (ir_module : Module)
    (global_variable : IrGlobalVariable) : WriterState × Instruction × Word :=
  let (st, id) := next_id st
  let cls := map_storage_class global_variable.storage_class
  let init_word := global_variable.init.map fun constant => st.constant_ids.getD constant 0
  let (st, pointer_type_id) := get_pointer_id st ir_module.types global_variable.ty cls
  let instruction := Instruction.variable' pointer_type_id id cls init_word
  let st := push_name_if cfg.flags.debug st id global_variable.name
  let storage_access : Option StorageAccess :=
    match global_variable.storage_class with
    | .Storage access => some access
    | _ => none
  let st :=
    match storage_access with
    | some access =>
      let st := if !access.load then decorate st id .NonReadable [] else st
      if !access.store then decorate st id .NonWritable [] else st
    | none => st
  let st :=
    match global_variable.binding with
    | some res_binding =>
      let st := decorate st id .DescriptorSet [res_binding.group]
      decorate st id .Binding [res_binding.binding]
    | none => st
  (st, instruction, id)

/-! ## `Writer::write_function` and its loops -/

/-- The local-variables loop of `write_function`: allocate ids, emit debug
names, resolve initializer words and `Function`-class pointer types, and
record each `OpVariable` into the function's first-block variables. -/
def wf_locals (cfg : Config) (ir_module : Module) :
    WriterState × SpvFunction → List (Nat × IrLocalVariable) →
    WriterState × SpvFunction
  | acc, [] => acc
  | (st, function), (handle, lvar) :: rest =>
    let (st, id) := next_id st
    let st := push_name_if cfg.flags.debug st id lvar.name
    let init_word := lvar.init.map fun constant => st.constant_ids.getD constant 0
    let (st, pointer_type_id) := get_pointer_id st ir_module.types lvar.ty .Function
    let instruction := Instruction.variable' pointer_type_id id .Function init_word
    let function :=
      { function with variables' := function.variables' ++ [(handle, ⟨id, instruction⟩)] }
    wf_locals cfg ir_module (st, function) rest

/-- Accumulator of the argument loop of `write_function`. -/
structure ArgAcc where
  st : WriterState
  prelude : Block
  ep_argument_ids : List Word
  varying_ids : List Word
  parameters : List FunctionArgument
  parameter_type_ids : List Word
deriving Repr

/-- The per-member loop of the struct-argument case: for each member,
synthesize an Input varying, load it in the prelude and collect the loaded
id as a constituent. -/
def wf_arg_members (cfg : Config) (ir_module : Module) (cls : SpvStorageClass) :
    WriterState × Block × List Word × List Word → List StructMember →
    Except Error (WriterState × Block × List Word × List Word)
  | acc, [] => .ok acc
  | (st, prelude, varying_ids, constituent_ids), member :: rest =>
    let (st, type_id) := get_type_id st (.Handle member.ty)
    match member.binding with
    | none => .error (.InvariantViolation "missing entry point argument member binding")
    | some binding =>
      match write_varying cfg st ir_module cls member.name member.ty binding with
      | .error e => .error e
      | .ok (st, varying_id) =>
        let varying_ids := varying_ids ++ [varying_id]
        let (st, id) := next_id st
        let prelude :=
          { prelude with body := prelude.body ++ [.load type_id id varying_id none] }
        wf_arg_members cfg ir_module cls
          (st, prelude, varying_ids, constituent_ids ++ [id]) rest

/-- The argument loop of `write_function`: with an interface (entry point),
bound arguments become Input varyings loaded in the prelude, struct
arguments become per-member varyings recomposed by
`OpCompositeConstruct`; without one, arguments become
`OpFunctionParameter`s (plus a prelude `OpLoad` for opaque handles). -/
def wf_args (cfg : Config) (ir_module : Module) (interface : Option ShaderStage) :
    ArgAcc → List IrFunctionArgument → Except Error ArgAcc
  | acc, [] => .ok acc
  | acc, argument :: rest =>
    let cls := SpvStorageClass.Input
    let handle_ty := (ir_module.types.getD argument.ty dummy_ty).inner.is_handle
    let (st, argument_type_id) :=
      if handle_ty then get_pointer_id acc.st ir_module.types argument.ty .UniformConstant
      else get_type_id acc.st (.Handle argument.ty)
    match interface with
    | some _ =>
      let stepped : Except Error (WriterState × Block × List Word × Word) :=
        match argument.binding with
        | some binding =>
          match write_varying cfg st ir_module cls argument.name argument.ty binding with
          | .error e => .error e
          | .ok (st, varying_id) =>
            let varying_ids := acc.varying_ids ++ [varying_id]
            let (st, id) := next_id st
            let prelude :=
              { acc.prelude with
                body := acc.prelude.body ++ [.load argument_type_id id varying_id none] }
            .ok (st, prelude, varying_ids, id)
        | none =>
          match (ir_module.types.getD argument.ty dummy_ty).inner with
          | .Struct _ members =>
            let (st, struct_id) := next_id st
            match wf_arg_members cfg ir_module cls
                (st, acc.prelude, acc.varying_ids, []) members with
            | .error e => .error e
            | .ok (st, prelude, varying_ids, constituent_ids) =>
              let prelude :=
                { prelude with
                  body := prelude.body
                    ++ [.composite_construct argument_type_id struct_id constituent_ids] }
              .ok (st, prelude, varying_ids, struct_id)
          | _ => .error (.InvariantViolation "Missing argument binding on an entry point")
      match stepped with
      | .error e => .error e
      | .ok (st, prelude, varying_ids, id) =>
        wf_args cfg ir_module interface
          { acc with
            st, prelude, varying_ids
            ep_argument_ids := acc.ep_argument_ids ++ [id] } rest
    | none =>
      let (st, argument_id) := next_id st
      let instruction := Instruction.function_parameter argument_type_id argument_id
      let st := push_name_if cfg.flags.debug st argument_id argument.name
      let (st, prelude, handle_id) :=
        if handle_ty then
          let (st, loaded_type_id) := get_type_id st (.Handle argument.ty)
          let (st, id) := next_id st
          let prelude :=
            { acc.prelude with
              body := acc.prelude.body ++ [.load loaded_type_id id argument_id none] }
          (st, prelude, id)
        else (st, acc.prelude, 0)
      wf_args cfg ir_module interface
        { acc with
          st, prelude
          parameters := acc.parameters ++ [⟨instruction, handle_id⟩]
          parameter_type_ids := acc.parameter_type_ids ++ [argument_type_id] } rest

/-- The per-member loop of the struct-result case of `write_function`:
synthesize an Output varying per member and record it as a result sink,
tracking whether any member is the `PointSize` built-in. -/
def wf_result_members (cfg : Config) (ir_module : Module) (cls : SpvStorageClass) :
    WriterState × Bool × List Word × List ResultMember → List StructMember →
    Except Error (WriterState × Bool × List Word × List ResultMember)
  | acc, [] => .ok acc
  | (st, has_point_size, varying_ids, results), member :: rest =>
    let (st, type_id) := get_type_id st (.Handle member.ty)
    match member.binding with
    | none => .error (.InvariantViolation "missing entry point result member binding")
    | some binding =>
      let has_point_size := has_point_size || binding = Binding.BuiltIn .PointSize
      match write_varying cfg st ir_module cls member.name member.ty binding with
      | .error e => .error e
      | .ok (st, varying_id) =>
        wf_result_members cfg ir_module cls
          (st, has_point_size, varying_ids ++ [varying_id],
            results ++ [⟨varying_id, type_id, binding.to_built_in⟩]) rest

/-- The global handle-load loop of `write_function`: for every `Handle`
class global the function uses, load its value in the prelude and record
the loaded id as the global's per-function `handle_id`. -/
def wf_global_loads (ir_module : Module) (info : FunctionInfo) :
    WriterState × Block → List (Nat × IrGlobalVariable) → WriterState × Block
  | acc, [] => acc
  | (st, prelude), (handle, var) :: rest =>
    if !(info.global_uses.getD handle false) || var.storage_class ≠ IrStorageClass.Handle then
      wf_global_loads ir_module info (st, prelude) rest
    else
      let (st, id) := next_id st
      let (st, result_type_id) := get_type_id st (.Handle var.ty)
      let gv := st.global_variables.getD handle GlobalVariable.dummy
      let prelude :=
        { prelude with body := prelude.body ++ [.load result_type_id id gv.id none] }
      let st :=
        { st with
          global_variables := st.global_variables.set handle { gv with handle_id := id } }
      wf_global_loads ir_module info (st, prelude) rest

/-- The pre-emit loop: expressions flagged `needs_pre_emit` are
materialized into the prelude before the main body begins. -/
def wf_pre_emit : Block → List TranslatedExpr → Block
  | prelude, [] => prelude
  | prelude, expr :: rest =>
    let prelude :=
      if expr.needs_pre_emit then
        { prelude with body := prelude.body ++ expr.prelude_insts }
      else prelude
    wf_pre_emit prelude rest

/-- The result-resolution step of `Writer::write_function` (the
`ir_function.result` match): with an interface, a bound result becomes one
Output varying and a bindingless struct result one varying per member
(plus the artificial `PointSize` under `FORCE_POINT_SIZE` for vertex
stages); without an interface the return type is interned. -/
def wf_resolve (cfg : Config) (ir_module : Module) (ir_function : IrFunction)
    (interface : Option ShaderStage) (acc : ArgAcc) (st : WriterState) :
    Except Error (WriterState × Block × List Word × List ResultMember × Word) :=
  match ir_function.result with
  | some result =>
    match interface with
    | some stage =>
      let cls := SpvStorageClass.Output
      let emitted :
          Except Error (WriterState × Bool × List Word × List ResultMember) :=
        match result.binding with
        | some binding =>
          let has_point_size := binding = Binding.BuiltIn .PointSize
          let (st, type_id) := get_type_id st (.Handle result.ty)
          match write_varying cfg st ir_module cls none result.ty binding with
          | .error e => .error e
          | .ok (st, varying_id) =>
            .ok (st, has_point_size, acc.varying_ids ++ [varying_id],
              [⟨varying_id, type_id, binding.to_built_in⟩])
        | none =>
          match (ir_module.types.getD result.ty dummy_ty).inner with
          | .Struct _ members =>
            wf_result_members cfg ir_module cls
              (st, false, acc.varying_ids, []) members
          | _ => .error (.InvariantViolation "Missing result binding on an entry point")
      match emitted with
      | .error e => .error e
      | .ok (st, has_point_size, varying_ids, results) =>
        if cfg.flags.force_point_size && stage = ShaderStage.Vertex && !has_point_size
        then
          -- add point size artificially
          let (st, varying_id) := next_id st
          let (st, pointer_type_id) := get_float_pointer_type_id st cls
          let st := push_decl st (.variable' pointer_type_id varying_id cls none)
          let st := decorate st varying_id .BuiltIn [SpvBuiltIn.PointSize.val]
          let varying_ids := varying_ids ++ [varying_id]
          let (st, default_value_id) := get_constant_scalar cfg st float_one 4
          let prelude :=
            { acc.prelude with
              body := acc.prelude.body ++ [.store varying_id default_value_id none] }
          .ok (st, prelude, varying_ids, results, st.void_type)
        else .ok (st, acc.prelude, varying_ids, results, st.void_type)
    | none =>
      let (st, return_type_id) := get_type_id st (.Handle result.ty)
      .ok (st, acc.prelude, acc.varying_ids, [], return_type_id)
  | none => .ok (st, acc.prelude, acc.varying_ids, [], st.void_type)

/-- `Writer::write_function`: emit one IR function (with the entry-point
interface synthesis when a stage is supplied), returning the function id
and the interface variable ids collected for `OpEntryPoint`.  The
expression/statement translator is the black box described by the spec;
its observable outcome is carried by the IR function's `body` field. -/
def write_function (cfg : Config) (st : WriterState) (ir_function : IrFunction)
    (info : FunctionInfo) (ir_module : Module) (interface : Option ShaderStage) :
    Except Error (WriterState × Word × List Word) :=
  let function : SpvFunction := {}
  let (st, function) := wf_locals cfg ir_module (st, function) ir_function.local_variables.enum
  let (st, prelude_id) := next_id st
  let prelude := Block.new prelude_id
  match wf_args cfg ir_module interface
      ⟨st, prelude, [], [], [], []⟩ ir_function.arguments with
  | .error e => .error e
  | .ok acc =>
    let st := acc.st
    let function := { function with parameters := acc.parameters }
    match wf_resolve cfg ir_module ir_function interface acc st with
    | .error e => .error e
    | .ok (st, prelude, varying_ids, ep_results, return_type_id) =>
      let lookup_function_type : LookupFunctionType :=
        ⟨acc.parameter_type_ids, return_type_id⟩
      let (st, function_id) := next_id st
      let st := push_name_if cfg.flags.debug st function_id ir_function.name
      let (st, function_type) := get_function_type st lookup_function_type
      let function :=
        { function with
          signature := some (.function' return_type_id function_id 0 function_type) }
      let function :=
        if interface.isSome then
          { function with
            entry_point_context := some ⟨acc.ep_argument_ids, ep_results⟩ }
        else function
      -- fill up the `GlobalVariable::handle_id`
      let st :=
        { st with
          global_variables := st.global_variables.map GlobalVariable.reset_for_function }
      let (st, prelude) :=
        wf_global_loads ir_module info (st, prelude) ir_module.global_variables.enum
      -- `BlockContext`: the cached-expression table is re-sized for this
      -- function (`cached.reset`), pre-emitted expressions go into the
      -- prelude, and the body is compiled by the black-box translator.
      let cached := List.replicate ir_function.expressions.length 0
      let prelude := wf_pre_emit prelude ir_function.expressions
      let (st, main_id) := next_id st
      let function := function.consume prelude (.branch main_id)
      if !ir_function.body.ok then .error (.TranslatorError ir_function.body.err)
      else
        let function :=
          { function with
            blocks := function.blocks ++ [Block.mk main_id ir_function.body.insts] }
        -- the `Writer` steals back its cached expression table and temp list
        let st := { st with saved_cached := cached }
        let st :=
          { st with
            logical_layout.function_definitions :=
              st.logical_layout.function_definitions
                ++ function.to_insts ++ [.function_end] }
        .ok (st, function_id, varying_ids)

/-- `Writer::write_execution_mode` (always succeeds; the capability check
in the source is commented out). -/
def write_execution_mode (st : WriterState) (function_id : Word)
    (mode : ExecutionMode) : WriterState :=
  { st with
    logical_layout.execution_modes :=
      st.logical_layout.execution_modes ++ [.execution_mode function_id mode []] }

/-- Modelled from the spec: `helpers::contains_builtin` — whether a binding
(or, for struct types, any member binding, recursively) carries the given
built-in.  Valid arenas are acyclic (types reference earlier handles), so
the explicit depth bound, instantiated with the arena length by the
wrapper, is never exhausted. -/
def contains_builtin_f (ir_types : List Ty) (built_in : BuiltIn) :
    Nat → Option Binding → Nat → Bool
  | 0, _, _ => false
  | fuel + 1, binding, ty =>
    match binding with
    | some (.BuiltIn bi) => bi = built_in
    | _ =>
      match (ir_types.getD ty dummy_ty).inner with
      | .Struct _ members =>
        members.any fun member =>
          contains_builtin_f ir_types built_in fuel member.binding member.ty
      | _ => false

def contains_builtin (binding : Option Binding) (ty : Nat) (ir_types : List Ty)
    (built_in : BuiltIn) : Bool :=
  contains_builtin_f ir_types built_in (ir_types.length + 1) binding ty

/-- `Writer::write_entry_point`: compile the function with a fresh
interface, choose the execution model, emit stage-specific execution modes
(`OriginUpperLeft` and possibly `DepthReplacing` for fragment, `LocalSize`
with the workgroup size for compute), and return the `OpEntryPoint`
instruction. -/
def write_entry_point (cfg : Config) (st : WriterState) (entry_point : EntryPoint)
    (info : FunctionInfo) (ir_module : Module) :
    Except Error (WriterState × Instruction) :=
  match write_function cfg st entry_point.function info ir_module
      (some entry_point.stage) with
  | .error e => .error e
  | .ok (st, function_id, interface_ids) =>
    let (st, exec_model) :=
      match entry_point.stage with
      | .Vertex => (st, ExecutionModel.Vertex)
      | .Fragment =>
        let st := write_execution_mode st function_id .OriginUpperLeft
        let st :=
          match entry_point.function.result with
          | some result =>
            if contains_builtin result.binding result.ty ir_module.types .FragDepth then
              write_execution_mode st function_id .DepthReplacing
            else st
          | none => st
        (st, ExecutionModel.Fragment)
      | .Compute =>
        let st :=
          { st with
            logical_layout.execution_modes :=
              st.logical_layout.execution_modes
                ++ [.execution_mode function_id .LocalSize entry_point.workgroup_size] }
        (st, ExecutionModel.GLCompute)
    .ok (st, .entry_point exec_model function_id entry_point.name interface_ids)

/-! ## `Writer::write_logical_layout` and the top-level driver -/

/-- The inner recursive scan of `write_logical_layout::has_view_index_check`
(a struct type is scanned member by member; otherwise the binding is
compared with `BuiltIn(ViewIndex)`).  Valid arenas are acyclic, so the
depth bound, instantiated with the arena length, is never exhausted. -/
def has_view_index_check_f (ir_module : Module) :
    Nat → Option Binding → Nat → Bool
  | 0, _, _ => false
  | fuel + 1, binding, ty =>
    match (ir_module.types.getD ty dummy_ty).inner with
    | .Struct _ members =>
      members.any fun member =>
        has_view_index_check_f ir_module fuel member.binding member.ty
    | _ => binding = some (.BuiltIn .ViewIndex)

/-- The `has_storage_buffers` scan of `write_logical_layout`: any global in
the `Storage` class. -/
def has_storage_buffers (ir_module : Module) : Bool :=
  ir_module.global_variables.any fun var =>
    match var.storage_class with
    | .Storage _ => true
    | _ => false

/-- The `has_view_index` scan of `write_logical_layout`: any entry-point
argument carrying `ViewIndex` (directly or through struct members). -/
def has_view_index (ir_module : Module) : Bool :=
  ir_module.entry_points.any fun entry =>
    entry.function.arguments.any fun arg =>
      has_view_index_check_f ir_module (ir_module.types.length + 1) arg.binding arg.ty

def storage_buffer_ext : String := "SPV_KHR_storage_buffer_storage_class"

/-- Step 1–2 of `write_logical_layout`: emit
`SPV_KHR_storage_buffer_storage_class` when the module has storage buffers
and the version word is below 0x10300, and `SPV_KHR_multiview` when any
interface carries `ViewIndex`. -/
def write_extensions (cfg : Config) (st : WriterState) (ir_module : Module) :
    WriterState :=
  let st :=
    if cfg.version < 0x10300 && has_storage_buffers ir_module then
      { st with
        logical_layout.extensions :=
          st.logical_layout.extensions ++ [.extension storage_buffer_ext] }
    else st
  if has_view_index ir_module then
    { st with
      logical_layout.extensions :=
        st.logical_layout.extensions ++ [.extension "SPV_KHR_multiview"] }
  else st

/-- Steps 3–5 of `write_logical_layout`: the void type declaration against
the pre-allocated id, the `GLSL.std.450` import, and the debug `OpSource`
(`SourceLanguage::GLSL = 2`, version 450). -/
def write_preamble (cfg : Config) (st : WriterState) : WriterState :=
  let st := push_decl st (.type_void st.void_type)
  let st :=
    { st with
      logical_layout.ext_inst_imports :=
        st.logical_layout.ext_inst_imports
          ++ [.ext_inst_import st.gl450_ext_inst_id "GLSL.std.450"] }
  if cfg.flags.debug then push_debug st (.source 2 450) else st

/-- `Vec::resize(n, v)`. -/
def resize (l : List Word) (n : Nat) (v : Word) : List Word :=
  if l.length < n then l ++ List.replicate (n - l.length) v else l.take n

/-- The scalar-constant pass (step 6): named scalar constants always get a
dedicated fresh id (so the name attaches) and are written directly —
without touching `cached_constants`; unnamed ones go through the
`get_constant_scalar` cache.  Composites are skipped. -/
def write_scalar_constants (cfg : Config) :
    WriterState → List (Nat × Constant) → WriterState
  | st, [] => st
  | st, (handle, constant) :: rest =>
    match constant.inner with
    | .Composite _ _ => write_scalar_constants cfg st rest
    | .Scalar width value =>
      let (st, id) :=
        match constant.name with
        | some nm =>
          let (st, id) := next_id st
          (write_constant_scalar cfg st id value width (some nm), id)
        | none => get_constant_scalar cfg st value width
      write_scalar_constants cfg
        { st with constant_ids := st.constant_ids.set handle id } rest

/-- The type pass (step 7). -/
def write_all_types (cfg : Config) (ir_module : Module) :
    WriterState → List (Nat × Ty) → Except Error WriterState
  | st, [] => .ok st
  | st, (handle, _) :: rest =>
    match write_type_declaration_arena cfg st ir_module.types handle with
    | .error e => .error e
    | .ok (st, _) => write_all_types cfg ir_module st rest

/-- The composite-constant pass (step 8); scalars are skipped. -/
def write_composite_constants (cfg : Config) :
    WriterState → List (Nat × Constant) → WriterState
  | st, [] => st
  | st, (handle, constant) :: rest =>
    match constant.inner with
    | .Scalar _ _ => write_composite_constants cfg st rest
    | .Composite ty components =>
      let (st, id) := next_id st
      let st := { st with constant_ids := st.constant_ids.set handle id }
      let st := push_name_if cfg.flags.debug st id constant.name
      let st := write_constant_composite st id ty components
      write_composite_constants cfg st rest

/-- The globals pass (step 9): with a selected entry point, globals whose
use-set in that entry point's info is empty are recorded as dummies (no
`OpVariable` emitted); all others are written and recorded, preserving the
1:1 index alignment with the IR arena. -/
def write_all_globals (cfg : Config) (ir_module : Module) (mod_info : ModuleInfo)
    (ep_index : Option Nat) :
    WriterState → List (Nat × IrGlobalVariable) → WriterState
  | st, [] => st
  | st, (handle, var) :: rest =>
    let prune :=
      match ep_index with
      | some index => !((mod_info.get_entry_point index).global_uses.getD handle false)
      | none => false
    let (st, gvar) :=
      if prune then (st, GlobalVariable.dummy)
      else
        let (st, instruction, id) := write_global_variable cfg st ir_module var
        (push_decl st instruction, GlobalVariable.new id)
    write_all_globals cfg ir_module mod_info ep_index
      { st with global_variables := st.global_variables ++ [gvar] } rest

/-- The function pass (step 10): a function is skipped when the selected
entry point's global-use set does not dominate the function's. -/
def write_all_functions (cfg : Config) (ir_module : Module) (mod_info : ModuleInfo)
    (ep_index : Option Nat) :
    WriterState → List (Nat × IrFunction) → Except Error WriterState
  | st, [] => .ok st
  | st, (handle, ir_function) :: rest =>
    let info := mod_info.functions.getD handle ⟨[]⟩
    let skip :=
      match ep_index with
      | some index => !(mod_info.get_entry_point index).dominates_global_use info
      | none => false
    if skip then write_all_functions cfg ir_module mod_info ep_index st rest
    else
      match write_function cfg st ir_function info ir_module none with
      | .error e => .error e
      | .ok (st, id, _) =>
        write_all_functions cfg ir_module mod_info ep_index
          { st with lookup_function := (handle, id) :: st.lookup_function } rest

/-- The entry-point pass (step 11): with a selected index only that entry
point is emitted. -/
def write_entry_points (cfg : Config) (ir_module : Module) (mod_info : ModuleInfo)
    (ep_index : Option Nat) :
    WriterState → List (Nat × EntryPoint) → Except Error WriterState
  | st, [] => .ok st
  | st, (index, ir_ep) :: rest =>
    if ep_index.isSome && ep_index ≠ some index then
      write_entry_points cfg ir_module mod_info ep_index st rest
    else
      let info := mod_info.get_entry_point index
      match write_entry_point cfg st ir_ep info ir_module with
      | .error e => .error e
      | .ok (st, ep_instruction) =>
        write_entry_points cfg ir_module mod_info ep_index
          { st with
            logical_layout.entry_points :=
              st.logical_layout.entry_points ++ [ep_instruction] } rest

/-- Step 12: flush `capabilities_used` as `OpCapability` instructions (the
Rust iterates the hash set; the model emits its list — a hash set exposes
no specified order), adding `Linkage` for modules without entry points. -/
def write_capabilities (st : WriterState) (ir_module : Module) : WriterState :=
  let st :=
    { st with
      logical_layout.capabilities :=
        st.logical_layout.capabilities
          ++ st.capabilities_used.map Instruction.capability }
  if ir_module.entry_points.isEmpty then
    { st with
      logical_layout.capabilities :=
        st.logical_layout.capabilities ++ [.capability .Linkage] }
  else st

/-- Step 13: `OpMemoryModel Logical GLSL450` (operand values 0 and 1). -/
def write_memory_model_inst (st : WriterState) : WriterState :=
  { st with
    logical_layout.memory_model :=
      st.logical_layout.memory_model ++ [.memory_model 0 1] }

/-- Step 14: flush the accumulated debug (only under `DEBUG`) and
annotation buffers into their layout sections. -/
def flush_debugs_annots (cfg : Config) (st : WriterState) : WriterState :=
  let st :=
    if cfg.flags.debug then
      { st with logical_layout.debugs := st.logical_layout.debugs ++ st.debugs }
    else st
  { st with logical_layout.annotations := st.logical_layout.annotations ++ st.annotations }

/-- `Writer::write_logical_layout`: the non-negotiable order of
operations. -/
def write_logical_layout (cfg : Config) (st : WriterState) (ir_module : Module)
    (mod_info : ModuleInfo) (ep_index : Option Nat) : Except Error WriterState :=
  let st := write_extensions cfg st ir_module
  let st := write_preamble cfg st
  let st := { st with constant_ids := resize st.constant_ids ir_module.constants.length 0 }
  let st := write_scalar_constants cfg st ir_module.constants.enum
  match write_all_types cfg ir_module st ir_module.types.enum with
  | .error e => .error e
  | .ok st =>
    let st := write_composite_constants cfg st ir_module.constants.enum
    let st := write_all_globals cfg ir_module mod_info ep_index st
      ir_module.global_variables.enum
    match write_all_functions cfg ir_module mod_info ep_index st
        ir_module.functions.enum with
    | .error e => .error e
    | .ok st =>
      match write_entry_points cfg ir_module mod_info ep_index st
          ir_module.entry_points.enum with
      | .error e => .error e
      | .ok st =>
        let st := write_capabilities st ir_module
        let st := write_memory_model_inst st
        let st := flush_debugs_annots cfg st
        .ok st

/-- `Writer::write_physical_layout`: `bound = last issued id + 1`. -/
def write_physical_layout (st : WriterState) : WriterState :=
  { st with bound := st.id_gen + 1 }

/-- Modelled from the spec: the generator magic word of the physical
header (implementation-defined). -/
def generator_magic : Word := 0

/-- Modelled from the spec: `PhysicalLayout::in_words` — the fixed 5-word
header: magic number, raw version word, generator magic, id bound,
reserved 0. -/
def physical_layout_in_words (cfg : Config) (st : WriterState) (words : List Word) :
    List Word :=
  words ++ [0x07230203, cfg.version, generator_magic, st.bound, 0]

/-- `Writer::write`: reset, resolve the optional pipeline entry point
(`EntryPointNotFound` when stage+name match nothing), run the logical and
physical layout passes, and only then serialize the header and layout into
the caller's word vector — every error path leaves `words` exactly as it
was received. -/
def write (cfg : Config) (st : WriterState) (ir_module : Module) (info : ModuleInfo)
    (pipeline_options : Option PipelineOptions) (words : List Word) :
    Except Error WriterState × List Word :=
  let st := reset cfg st
  let ep_index : Except Error (Option Nat) :=
    match pipeline_options with
    | some po =>
      match ir_module.entry_points.findIdx?
          (fun ep => po.shader_stage == ep.stage && po.entry_point == ep.name) with
      | some index => .ok (some index)
      | none => .error .EntryPointNotFound
    | none => .ok none
  match ep_index with
  | .error e => (.error e, words)
  | .ok ep_index =>
    match write_logical_layout cfg st ir_module info ep_index with
    | .error e => (.error e, words)
    | .ok st =>
      let st := write_physical_layout st
      let words := physical_layout_in_words cfg st words
      let words := st.logical_layout.in_words words
      (.ok st, words)

/-! ## Concrete instances evaluated by the witnesses -/

/-- A configuration for language version (1, 0) with no restriction and no
flags (what `Writer::new(Options::default())` produces). -/
def example_cfg : Config :=
  { version := (1 <<< 16) ||| (0 <<< 8), flags := ⟨false, false, false⟩
    bounds_check_policies := 0, capabilities_available := none }

/-- A configuration for language version (1, 2). -/
def example_cfg_12 : Config := { example_cfg with version := (1 <<< 16) ||| (2 <<< 8) }

/-- A configuration for language version (1, 3). -/
def example_cfg_13 : Config := { example_cfg with version := (1 <<< 16) ||| (3 <<< 8) }

/-- The empty module. -/
def example_module : Module := ⟨[], [], [], [], []⟩

def example_info : ModuleInfo := ⟨[], []⟩

/-- A module with a `vec4<f32>` type and a vertex entry point `main`
returning the `Position` built-in. -/
def ep_module : Module :=
  { types := [⟨none, .Vector .Quad .Float 4⟩]
    constants := []
    global_variables := []
    functions := []
    entry_points :=
      [{ stage := .Vertex, name := "main", workgroup_size := []
         function :=
          { name := some "main", arguments := [], result := some ⟨0, some (.BuiltIn .Position)⟩
            local_variables := [], expressions := [], body := ⟨true, "", []⟩ } }] }

def ep_info : ModuleInfo := ⟨[], [⟨[]⟩]⟩

/-- A module with one `u32` type and two uniform globals; its single entry
point uses only the first. -/
def pruning_module : Module :=
  { types := [⟨none, .Scalar .Uint 4⟩]
    constants := []
    global_variables :=
      [⟨some "used", .Uniform, none, 0, none⟩, ⟨some "unused", .Uniform, none, 0, none⟩]
    functions := []
    entry_points := [] }

def pruning_info : ModuleInfo := ⟨[], [⟨[true, false]⟩]⟩

/-- A module with one `u32` type and one `Storage`-class global. -/
def storage_module : Module :=
  { types := [⟨none, .Scalar .Uint 4⟩]
    constants := []
    global_variables := [⟨some "buf", .Storage ⟨true, true⟩, some ⟨0, 0⟩, 0, none⟩]
    functions := []
    entry_points := [] }

/-- Constants for the named-constant witness: a named and an unnamed
scalar with the same value and width, plus a second named copy. -/
def named_constants : List Constant :=
  [⟨some "a", .Scalar 4 (.Uint 5)⟩, ⟨none, .Scalar 4 (.Uint 5)⟩,
    ⟨some "b", .Scalar 4 (.Uint 5)⟩]

/-- The state after a first successful `write` of the empty module (used by
the reset-idempotence witness). -/
def c2_state : WriterState :=
  match (write example_cfg initial_state example_module example_info none []).1 with
  | .ok st => st
  | .error _ => initial_state

def c2_words : List Word :=
  (write example_cfg initial_state example_module example_info none []).2

/-- The state after writing the storage-buffer module at language version
(1, 2) (used by the storage-buffer-extension witness). -/
def c9_state_12 : WriterState :=
  match (write example_cfg_12 initial_state storage_module example_info none []).1 with
  | .ok st => st
  | .error _ => initial_state

def c9_words_12 : List Word :=
  (write example_cfg_12 initial_state storage_module example_info none []).2

/-- The state after writing the storage-buffer module at language version
(1, 3). -/
def c9_state_13 : WriterState :=
  match (write example_cfg_13 initial_state storage_module example_info none []).1 with
  | .ok st => st
  | .error _ => initial_state

def c9_words_13 : List Word :=
  (write example_cfg_13 initial_state storage_module example_info none []).2

/-! ## Frame lemmas for the interning helpers

`TypeFrame st st'` captures what the type/constant interning machinery can
do to the writer state: advance the id generator, and append
non-`OpVariable` instructions to the declarations buffer — while leaving
the constant tables, the globals table and the extensions section
untouched. -/

structure TypeFrame (st st' : WriterState) : Prop where
  id_mono : st.id_gen ≤ st'.id_gen
  cached : st'.cached_constants = st.cached_constants
  cids : st'.constant_ids = st.constant_ids
  gvars : st'.global_variables = st.global_variables
  exts : st'.logical_layout.extensions = st.logical_layout.extensions
  decls : ∃ new, st'.logical_layout.declarations = st.logical_layout.declarations ++ new
      ∧ ∀ i ∈ new, i.is_op_variable = false

theorem TypeFrame.rfl' {st : WriterState} : TypeFrame st st :=
  ⟨Nat.le_refl _, rfl, rfl, rfl, rfl, ⟨[], by simp⟩⟩

theorem TypeFrame.trans' {a b c : WriterState} (h1 : TypeFrame a b)
    (h2 : TypeFrame b c) : TypeFrame a c := by
  obtain ⟨n1, hn1, hv1⟩ := h1.decls
  obtain ⟨n2, hn2, hv2⟩ := h2.decls
  refine ⟨Nat.le_trans h1.id_mono h2.id_mono, h2.cached.trans h1.cached,
    h2.cids.trans h1.cids, h2.gvars.trans h1.gvars, h2.exts.trans h1.exts,
    ⟨n1 ++ n2, ?_, ?_⟩⟩
  · rw [hn2, hn1, List.append_assoc]
  · intro i hi
    rcases List.mem_append.mp hi with h | h
    · exact hv1 i h
    · exact hv2 i h

theorem tf_push_decl {st : WriterState} {i : Instruction}
    (h : i.is_op_variable = false) : TypeFrame st (push_decl st i) := by
  refine ⟨Nat.le_refl _, rfl, rfl, rfl, rfl, ⟨[i], rfl, ?_⟩⟩
  simpa using h

theorem tf_push_debug {st : WriterState} {i : Instruction} :
    TypeFrame st (push_debug st i) :=
  ⟨Nat.le_refl _, rfl, rfl, rfl, rfl, ⟨[], by simp [push_debug]⟩⟩

theorem tf_push_annot {st : WriterState} {i : Instruction} :
    TypeFrame st (push_annot st i) :=
  ⟨Nat.le_refl _, rfl, rfl, rfl, rfl, ⟨[], by simp [push_annot]⟩⟩

theorem tf_decorate {st : WriterState} {id : Word} {d : Decoration} {ops : List Word} :
    TypeFrame st (decorate st id d ops) :=
  tf_push_annot

theorem tf_next_id {st : WriterState} : TypeFrame st (next_id st).1 :=
  ⟨Nat.le_succ _, rfl, rfl, rfl, rfl, ⟨[], by simp [next_id]⟩⟩

theorem tf_set_lookup {st : WriterState} {l : List (LookupType × Word)} :
    TypeFrame st { st with lookup_type := l } :=
  ⟨Nat.le_refl _, rfl, rfl, rfl, rfl, ⟨[], by simp⟩⟩

theorem tf_set_caps {st : WriterState} {l : List Capability} :
    TypeFrame st { st with capabilities_used := l } :=
  ⟨Nat.le_refl _, rfl, rfl, rfl, rfl, ⟨[], by simp⟩⟩

theorem tf_make_scalar {st : WriterState} {id : Word} {k : ScalarKind} {w : Nat} :
    TypeFrame st (make_scalar st id k w).1 := by
  unfold make_scalar
  rcases k with _ | _ | _ | _
  · dsimp only
    split <;> first | exact tf_set_caps | exact TypeFrame.rfl'
  · dsimp only
    split <;> first | exact tf_set_caps | exact TypeFrame.rfl'
  · dsimp only
    split <;> first | exact tf_set_caps | exact TypeFrame.rfl'
  · exact TypeFrame.rfl'

theorem make_scalar_not_var {st : WriterState} {id : Word} {k : ScalarKind} {w : Nat} :
    (make_scalar st id k w).2.is_op_variable = false := by
  unfold make_scalar
  rcases k with _ | _ | _ | _ <;>
    simp [Instruction.is_op_variable] <;>
    split <;> simp [Instruction.is_op_variable]

theorem tf_write_local_f
    {gti : WriterState → LookupType → WriterState × Word}
    (hg : ∀ st t, TypeFrame st (gti st t).1) (st : WriterState) (id : Word)
    (l : LocalType) : TypeFrame st (write_type_declaration_local_f gti st id l) := by
  unfold write_type_declaration_local_f
  rcases l with ⟨vs, k, w, pc⟩ | ⟨c, r, w⟩ | ⟨b, c⟩ | _
  · rcases vs with _ | s <;> rcases pc with _ | c
    · exact (tf_make_scalar).trans' (tf_push_decl make_scalar_not_var)
    · dsimp only
      rcases h : gti st (.Local (.Value none k w none)) with ⟨st1, tid⟩
      have := hg st (.Local (.Value none k w none)); rw [h] at this
      exact this.trans' (tf_push_decl (by simp [Instruction.is_op_variable]))
    · dsimp only
      rcases h : gti st (.Local (.Value none k w none)) with ⟨st1, sid⟩
      have := hg st (.Local (.Value none k w none)); rw [h] at this
      exact this.trans' (tf_push_decl (by simp [Instruction.is_op_variable]))
    · dsimp only
      rcases h : gti st (.Local (.Value (some s) k w none)) with ⟨st1, tid⟩
      have := hg st (.Local (.Value (some s) k w none)); rw [h] at this
      exact this.trans' (tf_push_decl (by simp [Instruction.is_op_variable]))
  · dsimp only
    rcases h : gti st (.Local (.Value (some r) .Float w none)) with ⟨st1, vid⟩
    have := hg st (.Local (.Value (some r) .Float w none)); rw [h] at this
    exact this.trans' (tf_push_decl (by simp [Instruction.is_op_variable]))
  · dsimp only
    rcases h : gti st (.Handle b) with ⟨st1, tid⟩
    have := hg st (.Handle b); rw [h] at this
    exact this.trans' (tf_push_decl (by simp [Instruction.is_op_variable]))
  · exact tf_push_decl (by simp [Instruction.is_op_variable])

theorem tf_get_type_id_step
    {rec_ : WriterState → LookupType → WriterState × Word}
    (hg : ∀ st t, TypeFrame st (rec_ st t).1) (st : WriterState) (t : LookupType) :
    TypeFrame st (get_type_id_step rec_ st t).1 := by
  unfold get_type_id_step
  rcases h : lookupA st.lookup_type t with _ | id
  · rcases t with h' | l
    · exact TypeFrame.rfl'
    · simp only [next_id]
      have h1 : TypeFrame st { st with id_gen := st.id_gen + 1 } :=
        ⟨Nat.le_succ _, rfl, rfl, rfl, rfl, ⟨[], by simp⟩⟩
      have h2 : TypeFrame { st with id_gen := st.id_gen + 1 }
          { st with id_gen := st.id_gen + 1
                    lookup_type := (LookupType.Local l, st.id_gen + 1) :: st.lookup_type } :=
        ⟨Nat.le_refl _, rfl, rfl, rfl, rfl, ⟨[], by simp⟩⟩
      exact (h1.trans' h2).trans' (tf_write_local_f hg _ _ _)
  · exact TypeFrame.rfl'

theorem tf_get_type_id_f : ∀ (fuel : Nat) (st : WriterState) (t : LookupType),
    TypeFrame st (get_type_id_f fuel st t).1 := by
  intro fuel
  induction fuel with
  | zero => intro st t; exact TypeFrame.rfl'
  | succ n ih => intro st t; exact tf_get_type_id_step ih st t

theorem tf_get_type_id {st : WriterState} {t : LookupType} :
    TypeFrame st (get_type_id st t).1 :=
  tf_get_type_id_f 4 st t

theorem tf_write_local {st : WriterState} {id : Word} {l : LocalType} :
    TypeFrame st (write_type_declaration_local st id l) :=
  tf_write_local_f (tf_get_type_id_f 3) st id l

theorem tf_get_pointer_id {st : WriterState} {arena : List Ty} {h : Nat}
    {c : SpvStorageClass} : TypeFrame st (get_pointer_id st arena h c).1 := by
  unfold get_pointer_id
  rcases hg : get_type_id st (.Handle h) with ⟨st1, tid⟩
  have h1 : TypeFrame st st1 := by
    have := @tf_get_type_id st (.Handle h); rw [hg] at this; exact this
  dsimp only
  split
  · exact h1
  · split
    · exact h1
    · refine h1.trans' (TypeFrame.trans' tf_next_id ?_)
      exact (tf_push_decl (by simp [Instruction.is_op_variable])).trans' tf_set_lookup

theorem tf_get_float_type_id {st : WriterState} :
    TypeFrame st (get_float_type_id st).1 :=
  tf_get_type_id

theorem tf_set_lookup_fn {st : WriterState} {l : List (LookupFunctionType × Word)} :
    TypeFrame st { st with lookup_function_type := l } :=
  ⟨Nat.le_refl _, rfl, rfl, rfl, rfl, ⟨[], by simp⟩⟩

theorem tf_id_bump {st : WriterState} : TypeFrame st { st with id_gen := st.id_gen + 1 } :=
  ⟨Nat.le_succ _, rfl, rfl, rfl, rfl, ⟨[], by simp⟩⟩

theorem tf_get_float_pointer_type_id {st : WriterState} {c : SpvStorageClass} :
    TypeFrame st (get_float_pointer_type_id st c).1 := by
  unfold get_float_pointer_type_id
  dsimp only
  rcases h : lookupA st.lookup_type
      (LookupType.Local (.Value none .Float 4 (some c))) with _ | id
  · simp only [next_id]
    rcases hg : get_float_type_id { st with id_gen := st.id_gen + 1 } with ⟨st1, tid⟩
    have h1 : TypeFrame { st with id_gen := st.id_gen + 1 } st1 := by
      have := @tf_get_float_type_id { st with id_gen := st.id_gen + 1 }
      rw [hg] at this; exact this
    exact tf_id_bump.trans' (h1.trans'
      ((tf_push_decl (by simp [Instruction.is_op_variable])).trans' tf_set_lookup))
  · exact TypeFrame.rfl'

theorem tf_get_function_type {st : WriterState} {k : LookupFunctionType} :
    TypeFrame st (get_function_type st k).1 := by
  unfold get_function_type
  split
  · exact TypeFrame.rfl'
  · simp only [next_id]
    exact TypeFrame.trans'
      (⟨Nat.le_succ _, rfl, rfl, rfl, rfl, ⟨[], by simp⟩⟩ :
        TypeFrame st { st with id_gen := st.id_gen + 1 })
      ((tf_push_decl (by simp [Instruction.is_op_variable])).trans' tf_set_lookup_fn)

theorem tf_push_name_if {cond : Bool} {st : WriterState} {id : Word}
    {nm : Option String} : TypeFrame st (push_name_if cond st id nm) := by
  unfold push_name_if
  split
  · split
    · exact tf_push_debug
    · exact TypeFrame.rfl'
  · exact TypeFrame.rfl'

theorem tf_write_constant_scalar {cfg : Config} {st : WriterState} {id : Word}
    {v : ScalarValue} {w : Nat} {nm : Option String} :
    TypeFrame st (write_constant_scalar cfg st id v w nm) := by
  unfold write_constant_scalar
  dsimp only
  rcases hg : get_type_id (push_name_if cfg.flags.debug st id nm)
      (.Local (.Value none v.scalar_kind w none)) with ⟨st1, tid⟩
  have h1 : TypeFrame (push_name_if cfg.flags.debug st id nm) st1 := by
    have := @tf_get_type_id (push_name_if cfg.flags.debug st id nm)
      (.Local (.Value none v.scalar_kind w none))
    rw [hg] at this; exact this
  refine TypeFrame.trans' (TypeFrame.trans' tf_push_name_if h1) ?_
  exact tf_push_decl (by split <;> simp [Instruction.is_op_variable])

/-! ## Generic list lemmas used below -/

theorem find?_of_first {α : Type} (p : α → Bool) :
    ∀ (l : List α) (i : Nat) (hi : i < l.length), p l[i] = true →
      (∀ j, (hj : j < i) → p (l.get ⟨j, Nat.lt_trans hj hi⟩) = false) →
      l.find? p = some l[i]
  | a :: t, 0, _, hp, _ => by
    simp only [List.getElem_cons_zero] at hp
    simp [List.find?, hp]
  | a :: t, i + 1, hi, hp, hj => by
    have ha : p a = false := by simpa using hj 0 (Nat.succ_pos i)
    have ht := find?_of_first p t i (Nat.lt_of_succ_lt_succ hi)
      (by simpa using hp)
      (fun j hjlt => by simpa using hj (j + 1) (Nat.succ_lt_succ hjlt))
    simp [List.find?, ha, ht]

theorem find?_of_none {α : Type} (p : α → Bool) :
    ∀ (l : List α), (∀ a ∈ l, p a = false) → l.find? p = none
  | [], _ => rfl
  | a :: t, h => by
    have ha := h a (by simp)
    simp [List.find?, ha, find?_of_none p t (fun b hb => h b (by simp [hb]))]

theorem findIdx?_of_none {α : Type} (p : α → Bool) :
    ∀ (l : List α) (s : Nat), (∀ a ∈ l, p a = false) → l.findIdx? p s = none
  | [], _, _ => rfl
  | a :: t, s, h => by
    have ha := h a (by simp)
    have ht := findIdx?_of_none p t (s + 1) (fun b hb => h b (by simp [hb]))
    simp [List.findIdx?, ha, ht]
    exact fun b hb => h b (by simp [hb])

/-! ## C1 — the capability gate -/

/-- C1: `require_any(what, caps)`: an empty list succeeds without touching
`capabilities_used`; with `capabilities_available = None` the first element
of the list is inserted and the call succeeds; with
`capabilities_available = Some avail`, if no element of `caps` is in
`avail` the call fails with `MissingCapabilities(what, caps)` leaving the
state unchanged (the error return carries no state change), and otherwise
the first element of `caps` that is in `avail` is inserted and the call
succeeds. -/
theorem require_any_correct (cfg : Config) (st : WriterState) (what : String)
    (caps : List Capability) :
    (caps = [] → require_any cfg st what caps = .ok st) ∧
    (∀ c rest, caps = c :: rest → cfg.capabilities_available = none →
      require_any cfg st what caps =
        .ok { st with capabilities_used := capInsert st.capabilities_used c }) ∧
    (∀ avail, cfg.capabilities_available = some avail →
      (caps ≠ [] → (∀ c ∈ caps, c ∉ avail) →
        require_any cfg st what caps = .error (.MissingCapabilities what caps)) ∧
      (∀ i, (hi : i < caps.length) → caps[i] ∈ avail →
        (∀ j, (hj : j < i) → caps.get ⟨j, Nat.lt_trans hj hi⟩ ∉ avail) →
        require_any cfg st what caps =
          .ok { st with capabilities_used := capInsert st.capabilities_used caps[i] })) := by
  refine ⟨?_, ?_, ?_⟩
  · intro h; subst h; rfl
  · intro c rest hc hnone
    subst hc
    unfold require_any
    rw [hnone]
  · intro avail hsome
    constructor
    · intro hne hnomem
      rcases caps with _ | ⟨c, rest⟩
      · exact absurd rfl hne
      · unfold require_any
        rw [hsome]
        dsimp only
        have hfind : (c :: rest).find? (fun cap => avail.contains cap) = none := by
          apply find?_of_none
          intro a ha
          simpa using hnomem a ha
        rw [hfind]
    · intro i hi hmem hfirst
      rcases caps with _ | ⟨c, rest⟩
      · simp at hi
      · unfold require_any
        rw [hsome]
        dsimp only
        have hfind : (c :: rest).find? (fun cap => avail.contains cap) =
            some (c :: rest)[i] := by
          apply find?_of_first
          · simpa using hmem
          · intro j hj
            simpa using hfirst j hj
        rw [hfind]

/-- C1 witness: with `caps = [Float64, Int64]` and
`available = [Int64]`, the second element is the first member of the
availability set and gets inserted; with `available = []` the call fails;
with no restriction the head is inserted. -/
theorem require_any_correct_witness :
    require_any ⟨65536, ⟨false, false, false⟩, 0, some [.Int64]⟩ initial_state "w"
        [.Float64, .Int64] =
      .ok { initial_state with
        capabilities_used := capInsert initial_state.capabilities_used .Int64 } ∧
    require_any ⟨65536, ⟨false, false, false⟩, 0, some []⟩ initial_state "w"
        [.Float64, .Int64] =
      .error (.MissingCapabilities "w" [.Float64, .Int64]) ∧
    require_any example_cfg initial_state "w" [.Float64, .Int64] =
      .ok { initial_state with
        capabilities_used := capInsert initial_state.capabilities_used .Float64 } := by
  refine ⟨?_, ?_, ?_⟩
  · exact (((require_any_correct ⟨65536, ⟨false, false, false⟩, 0, some [.Int64]⟩
      initial_state "w" [.Float64, .Int64]).2.2 [.Int64] rfl).2 1 (by decide)
      (by decide) (by decide))
  · exact (((require_any_correct ⟨65536, ⟨false, false, false⟩, 0, some []⟩
      initial_state "w" [.Float64, .Int64]).2.2 [] rfl).1 (by decide) (by decide))
  · exact ((require_any_correct example_cfg initial_state "w"
      [.Float64, .Int64]).2.1 .Float64 [.Int64] rfl rfl)

/-! ## C5 — scalar constant word encoding -/

/-- C5: `write_constant_scalar` encodes an integer of width 4 as the single
word `val as u32` (`val % 2^32`); of width 8 as two words with the high 32
bits first — they reassemble to `val` modulo `2^64`; a float of width 4 as
the single word of the `f32` conversion's bit pattern; a float of width 8
as the high then low 32 bits of `f64::to_bits(val)` — they reassemble to
the `f64` bit pattern modulo `2^64`.  The non-boolean value is wrapped in
an `OpConstant` whose operands are exactly `scalar_constant_words`. -/
theorem write_constant_scalar_encoding :
    (∀ v : Int,
      scalar_constant_words (.Sint v) 4 = [(v % 4294967296).toNat] ∧
      ((v % 4294967296).toNat : Int) = v % 4294967296 ∧
      scalar_constant_words (.Sint v) 8 =
        [(v / 4294967296 % 4294967296).toNat, (v % 4294967296).toNat] ∧
      (((v / 4294967296 % 4294967296).toNat : Int) * 4294967296
          + ((v % 4294967296).toNat : Int) = v % 18446744073709551616)) ∧
    (∀ v : Nat,
      scalar_constant_words (.Uint v) 4 = [v % 4294967296] ∧
      scalar_constant_words (.Uint v) 8 = [v / 4294967296 % 4294967296, v % 4294967296] ∧
      v / 4294967296 % 4294967296 * 4294967296 + v % 4294967296
        = v % 18446744073709551616) ∧
    (∀ b64 b32 : Nat,
      scalar_constant_words (.Float b64 b32) 4 = [b32] ∧
      scalar_constant_words (.Float b64 b32) 8 =
        [b64 / 4294967296 % 4294967296, b64 % 4294967296] ∧
      b64 / 4294967296 % 4294967296 * 4294967296 + b64 % 4294967296
        = b64 % 18446744073709551616) ∧
    (∀ cfg st id w (v : Int), ∃ p : WriterState × Word,
      write_constant_scalar cfg st id (.Sint v) w none =
        push_decl p.1 (.constant p.2 id (scalar_constant_words (.Sint v) w))) ∧
    (∀ cfg st id w (b64 b32 : Nat), ∃ p : WriterState × Word,
      write_constant_scalar cfg st id (.Float b64 b32) w none =
        push_decl p.1 (.constant p.2 id (scalar_constant_words (.Float b64 b32) w))) := by
  refine ⟨?_, ?_, ?_, ?_, ?_⟩
  · intro v
    have h4 : (0 : Int) < 4294967296 := by norm_num
    have hm : (0 : Int) ≤ v % 4294967296 := Int.emod_nonneg v (by norm_num)
    have hh : (0 : Int) ≤ v / 4294967296 % 4294967296 :=
      Int.emod_nonneg _ (by norm_num)
    refine ⟨rfl, Int.toNat_of_nonneg hm, rfl, ?_⟩
    rw [Int.toNat_of_nonneg hh, Int.toNat_of_nonneg hm]
    omega
  · intro v
    refine ⟨rfl, rfl, ?_⟩
    omega
  · intro b64 b32
    refine ⟨rfl, rfl, ?_⟩
    omega
  · intro cfg st id w v
    exact ⟨get_type_id (push_name_if cfg.flags.debug st id none)
      (.Local (.Value none (ScalarValue.Sint v).scalar_kind w none)), rfl⟩
  · intro cfg st id w b64 b32
    exact ⟨get_type_id (push_name_if cfg.flags.debug st id none)
      (.Local (.Value none (ScalarValue.Float b64 b32).scalar_kind w none)), rfl⟩

/-! ## C6 — idempotence of the scalar-constant cache -/

/-- C6: two calls of `get_constant_scalar` with equal `(value, width)`
return the same id, and the second call changes nothing — the constant
declaration is emitted only once. -/
theorem get_constant_scalar_idempotent (cfg : Config) (st : WriterState)
    (value : ScalarValue) (width : Nat) :
    get_constant_scalar cfg (get_constant_scalar cfg st value width).1 value width =
      get_constant_scalar cfg st value width := by
  rcases hr : get_constant_scalar cfg st value width with ⟨st1, id1⟩
  have hlook : lookupA st1.cached_constants (value, width) = some id1 := by
    unfold get_constant_scalar at hr
    rcases h : lookupA st.cached_constants (value, width) with _ | id
    · rw [h] at hr
      simp only [next_id] at hr
      rw [Prod.mk.injEq] at hr
      rw [← hr.1]
      simp [lookupA, hr.2]
    · rw [h] at hr
      rw [Prod.mk.injEq] at hr
      rw [← hr.1, ← hr.2]
      exact h
  unfold get_constant_scalar
  rw [hlook]

/-! ## C7 — physical header shape and bound -/

/-- C7: the physical header is exactly 5 words;
`write_physical_layout` sets `bound` to the last issued id plus one
(`id_gen` holds the last issued id); and a freshly constructed `Writer`
(which has pre-allocated the GLSL.std.450 import id and the void type id,
so `id_gen = 2`) has `bound = 0` before `write_physical_layout` and
`bound = 3` after. -/
theorem physical_header_and_bound :
    (∀ cfg st ws, (physical_layout_in_words cfg st ws).length = ws.length + 5) ∧
    (∀ st : WriterState, (write_physical_layout st).bound = st.id_gen + 1) ∧
    (∀ opts cfg st, Writer.new opts = .ok (cfg, st) →
      st.bound = 0 ∧ st.id_gen = 2 ∧ (write_physical_layout st).bound = 3) := by
  refine ⟨?_, ?_, ?_⟩
  · intro cfg st ws
    simp [physical_layout_in_words]
  · intro st; rfl
  · intro opts cfg st h
    unfold Writer.new at h
    rcases hl : opts.lang_version with ⟨major, minor⟩
    rw [hl] at h
    dsimp only at h
    split at h
    · exact absurd h (by simp)
    · rw [Except.ok.injEq, Prod.mk.injEq] at h
      rw [← h.2]
      exact ⟨rfl, rfl, rfl⟩

/-- C7 witness: `Writer::new(Options::default())` succeeds and its state
transitions `bound` from 0 to 3, as the unit test
`test_write_physical_layout` asserts. -/
theorem physical_header_and_bound_witness :
    Writer.new Options.default = .ok (example_cfg, initial_state) ∧
    initial_state.bound = 0 ∧ initial_state.id_gen = 2 ∧
    (write_physical_layout initial_state).bound = 3 :=
  ⟨rfl, physical_header_and_bound.2.2 Options.default example_cfg initial_state rfl⟩

/-! ## List helpers for the constant-pass induction -/

theorem lookupA_mem {α β : Type} [DecidableEq α] :
    ∀ {l : List (α × β)} {k : α} {v : β}, lookupA l k = some v → (k, v) ∈ l := by
  intro l
  induction l with
  | nil => intro k v h; simp [lookupA] at h
  | cons p t ih =>
    intro k v h
    rcases p with ⟨a, b⟩
    by_cases hk : a = k
    · subst hk
      simp [lookupA] at h
      simp [h]
    · rw [lookupA, if_neg hk] at h
      simp [ih h]

theorem getD_set_self {α : Type} [Inhabited α] :
    ∀ (l : List α) (i : Nat) (v d : α), i < l.length → (l.set i v).getD i d = v
  | a :: t, 0, v, d, _ => rfl
  | a :: t, i + 1, v, d, h =>
    getD_set_self t i v d (Nat.lt_of_succ_lt_succ h)
  | [], i, v, d, h => by simp at h

theorem getD_set_ne {α : Type} :
    ∀ (l : List α) (i j : Nat) (v d : α), i ≠ j → (l.set i v).getD j d = l.getD j d := by
  intro l
  induction l with
  | nil => intro i j v d _; simp
  | cons a t ih =>
    intro i j v d hne
    rcases i with _ | i
    · rcases j with _ | j
      · exact absurd rfl hne
      · simp [List.set, List.getD]
    · rcases j with _ | j
      · simp [List.set, List.getD]
      · simp only [List.set, List.getD_cons_succ]
        exact ih i j v d (fun he => hne (by rw [he]))

theorem getD_mem {α : Type} :
    ∀ (l : List α) (i : Nat) (d : α), i < l.length → l.getD i d ∈ l
  | a :: t, 0, d, _ => by simp
  | a :: t, i + 1, d, h => by
    simp only [List.getD_cons_succ]
    exact List.mem_cons_of_mem a (getD_mem t i d (Nat.lt_of_succ_lt_succ h))
  | [], i, d, h => by simp at h

theorem mem_of_mem_set {α : Type} :
    ∀ (l : List α) (i : Nat) (v x : α), x ∈ l.set i v → x ∈ l ∨ x = v := by
  intro l
  induction l with
  | nil => intro i v x h; simp at h
  | cons a t ih =>
    intro i v x h
    rcases i with _ | i
    · simp only [List.set] at h
      rw [List.mem_cons] at h
      rcases h with h | h
      · exact Or.inr h
      · exact Or.inl (List.mem_cons_of_mem a h)
    · simp only [List.set] at h
      rw [List.mem_cons] at h
      rcases h with h | h
      · exact Or.inl (by simp [h])
      · rcases ih i v x h with h' | h'
        · exact Or.inl (List.mem_cons_of_mem a h')
        · exact Or.inr h'

theorem mem_enumFrom_bounds {α : Type} :
    ∀ (l : List α) (s : Nat) (p : Nat × α), p ∈ l.enumFrom s →
      s ≤ p.1 ∧ p.1 < s + l.length := by
  intro l
  induction l with
  | nil => intro s p h; simp [List.enumFrom] at h
  | cons a t ih =>
    intro s p h
    rw [List.enumFrom, List.mem_cons] at h
    rcases h with h | h
    · simp [h]
    · have := ih (s + 1) p h
      constructor <;> [omega; (simp only [List.length_cons]; omega)]

theorem enumFrom_pairwise_ne {α : Type} :
    ∀ (l : List α) (s : Nat),
      List.Pairwise (fun p q : Nat × α => p.1 ≠ q.1) (l.enumFrom s) := by
  intro l
  induction l with
  | nil => intro s; simp [List.enumFrom]
  | cons a t ih =>
    intro s
    refine List.Pairwise.cons ?_ (ih (s + 1))
    intro q hq
    have := mem_enumFrom_bounds t (s + 1) q hq
    simp only
    omega

theorem enumFrom_get_mem {α : Type} :
    ∀ (l : List α) (s i : Nat) (h : i < l.length), (s + i, l[i]) ∈ l.enumFrom s := by
  intro l
  induction l with
  | nil => intro s i h; simp at h
  | cons a t ih =>
    intro s i h
    rcases i with _ | i
    · simp [List.enumFrom]
    · have := ih (s + 1) i (Nat.lt_of_succ_lt_succ h)
      simp only [List.getElem_cons_succ]
      refine List.mem_cons_of_mem _ ?_
      have heq : s + (i + 1) = s + 1 + i := by omega
      rw [heq]
      exact this

/-! ## C10 — named scalar constants get dedicated, unshared ids -/

/-- Every cached scalar-constant id is a previously issued (nonzero) id. -/
def CacheOk (st : WriterState) : Prop :=
  ∀ p ∈ st.cached_constants, 1 ≤ p.2 ∧ p.2 ≤ st.id_gen

theorem wcs_cached {cfg : Config} {st : WriterState} {id : Word} {v : ScalarValue}
    {w : Nat} {nm : Option String} :
    (write_constant_scalar cfg st id v w nm).cached_constants = st.cached_constants :=
  (tf_write_constant_scalar).cached

theorem wcs_cids {cfg : Config} {st : WriterState} {id : Word} {v : ScalarValue}
    {w : Nat} {nm : Option String} :
    (write_constant_scalar cfg st id v w nm).constant_ids = st.constant_ids :=
  (tf_write_constant_scalar).cids

theorem wcs_id_mono {cfg : Config} {st : WriterState} {id : Word} {v : ScalarValue}
    {w : Nat} {nm : Option String} :
    st.id_gen ≤ (write_constant_scalar cfg st id v w nm).id_gen :=
  (tf_write_constant_scalar).id_mono

/-- Behaviour of `get_constant_scalar` needed for the freshness argument:
it never touches `constant_ids`, only advances `id_gen`, keeps the cache
well-formed, returns a nonzero already-issued id, every cache entry after
the call is an old entry or carries the returned id, and the returned id is
either an old cached id or fresh (greater than every previously issued
id). -/
theorem gcs_spec (cfg : Config) (st : WriterState) (value : ScalarValue)
    (width : Nat) (hc : CacheOk st) (st1 : WriterState) (rid : Word)
    (hr : get_constant_scalar cfg st value width = (st1, rid)) :
    st1.constant_ids = st.constant_ids ∧ st.id_gen ≤ st1.id_gen ∧ CacheOk st1 ∧
    1 ≤ rid ∧ rid ≤ st1.id_gen ∧
    (∀ p ∈ st1.cached_constants, p ∈ st.cached_constants ∨ p.2 = rid) ∧
    ((∃ p ∈ st.cached_constants, p.2 = rid) ∨ st.id_gen < rid) := by
  unfold get_constant_scalar at hr
  rcases h : lookupA st.cached_constants (value, width) with _ | id <;> rw [h] at hr
  · simp only [next_id] at hr
    rw [Prod.mk.injEq] at hr
    obtain ⟨hst1, hid⟩ := hr
    subst hst1
    subst hid
    have hca := @wcs_cached cfg { st with id_gen := st.id_gen + 1 }
      (st.id_gen + 1) value width none
    have hci := @wcs_cids cfg { st with id_gen := st.id_gen + 1 }
      (st.id_gen + 1) value width none
    have hmo := @wcs_id_mono cfg { st with id_gen := st.id_gen + 1 }
      (st.id_gen + 1) value width none
    refine ⟨hci, ?_, ?_, Nat.succ_le_succ (Nat.zero_le _), hmo, ?_,
      Or.inr (Nat.lt_succ_self _)⟩
    · exact Nat.le_trans (Nat.le_succ _) hmo
    · intro p hp
      have hp2 : p ∈ ((value, width), st.id_gen + 1)
          :: (write_constant_scalar cfg { st with id_gen := st.id_gen + 1 }
            (st.id_gen + 1) value width none).cached_constants := hp
      rw [hca, List.mem_cons] at hp2
      rcases hp2 with rfl | hp2
      · exact ⟨Nat.succ_le_succ (Nat.zero_le _), hmo⟩
      · have hb := hc p hp2
        exact ⟨hb.1, Nat.le_trans hb.2 (Nat.le_trans (Nat.le_succ _) hmo)⟩
    · intro p hp
      have hp2 : p ∈ ((value, width), st.id_gen + 1)
          :: (write_constant_scalar cfg { st with id_gen := st.id_gen + 1 }
            (st.id_gen + 1) value width none).cached_constants := hp
      rw [hca, List.mem_cons] at hp2
      rcases hp2 with rfl | hp2
      · exact Or.inr rfl
      · exact Or.inl hp2
  · rw [Prod.mk.injEq] at hr
    obtain ⟨hst1, hid⟩ := hr
    subst hst1
    subst hid
    have hmem := lookupA_mem h
    have hb := hc _ hmem
    exact ⟨rfl, Nat.le_refl _, hc, hb.1, hb.2, fun p hp => Or.inl hp,
      Or.inl ⟨(⟨(value, width), id⟩ : (ScalarValue × Nat) × Word), hmem, rfl⟩⟩

/-- The induction invariant of the scalar-constant pass: the cache and the
assigned ids are bounded by the id generator, and every index in `named`
has received an id that is not in the cache and differs from every other
entry of `constant_ids`. -/
def ScalarPassInv (named : List Nat) (st : WriterState) : Prop :=
  CacheOk st ∧
  (∀ id ∈ st.constant_ids, id ≤ st.id_gen) ∧
  (∀ i ∈ named, i < st.constant_ids.length ∧ 1 ≤ st.constant_ids.getD i 0 ∧
    (∀ p ∈ st.cached_constants, p.2 ≠ st.constant_ids.getD i 0) ∧
    (∀ j, j < st.constant_ids.length → j ≠ i →
      st.constant_ids.getD j 0 ≠ st.constant_ids.getD i 0))

theorem write_scalar_constants_inv (cfg : Config) :
    ∀ (l : List (Nat × Constant)) (named : List Nat) (st : WriterState),
      ScalarPassInv named st →
      (∀ p ∈ l, p.1 < st.constant_ids.length) →
      List.Pairwise (fun p q : Nat × Constant => p.1 ≠ q.1) l →
      (∀ p ∈ l, p.1 ∉ named) →
      ∃ named',
        ScalarPassInv named' (write_scalar_constants cfg st l) ∧
        (∀ i ∈ named, i ∈ named') ∧
        (∀ p ∈ l, ∀ w v nm, p.2 = Constant.mk (some nm) (.Scalar w v) → p.1 ∈ named') ∧
        (write_scalar_constants cfg st l).constant_ids.length
          = st.constant_ids.length := by
  intro l
  induction l with
  | nil =>
    intro named st hinv _ _ _
    exact ⟨named, hinv, fun i hi => hi, by simp, rfl⟩
  | cons hd tl ih =>
    intro named st hinv hbound hpw hdisj
    rcases hd with ⟨idx, constant⟩
    have hpw_head := (List.pairwise_cons.mp hpw).1
    have hpw_tail := (List.pairwise_cons.mp hpw).2
    rcases hconst : constant.inner with ⟨w, value⟩ | ⟨ty, comps⟩
    · -- scalar constant
      obtain ⟨hcache, hids, hnamed⟩ := hinv
      have hidx : idx < st.constant_ids.length := hbound _ (List.mem_cons_self _ _)
      rcases hname : constant.name with _ | nm
      · -- unnamed: goes through the cache
        rcases hr : get_constant_scalar cfg st value w with ⟨st1, rid⟩
        obtain ⟨hci, hmono, hcok, hpos, hle, hold, hfresh⟩ :=
          gcs_spec cfg st value w hcache st1 rid hr
        have hstep : write_scalar_constants cfg st ((idx, constant) :: tl)
            = write_scalar_constants cfg
              { st1 with constant_ids := st1.constant_ids.set idx rid } tl := by
          simp only [write_scalar_constants, hconst, hname, hr]
        set st2 : WriterState :=
          { st1 with constant_ids := st1.constant_ids.set idx rid } with hst2
        have hca2 : st2.cached_constants = st1.cached_constants := by rw [hst2]
        have hcid2 : st2.constant_ids = st1.constant_ids.set idx rid := by rw [hst2]
        have hgen2 : st2.id_gen = st1.id_gen := by rw [hst2]
        have hlen2 : st2.constant_ids.length = st.constant_ids.length := by
          rw [hcid2, List.length_set, hci]
        have hinv2 : ScalarPassInv named st2 := by
          refine ⟨?_, ?_, ?_⟩
          · intro p hp
            rw [hca2] at hp
            have := hcok p hp
            rw [hgen2]
            exact this
          · intro id0 hid
            rw [hcid2] at hid
            rw [hgen2]
            rcases mem_of_mem_set _ _ _ _ hid with hm | hm
            · rw [hci] at hm
              exact Nat.le_trans (hids id0 hm) hmono
            · rw [hm]
              exact hle
          · intro i hi
            obtain ⟨hilen, hipos, hicache, hidist⟩ := hnamed i hi
            have hine : idx ≠ i := by
              intro he
              exact hdisj (idx, constant) (List.mem_cons_self _ _) (by rw [he]; exact hi)
            have hival : st2.constant_ids.getD i 0 = st.constant_ids.getD i 0 := by
              rw [hcid2, getD_set_ne _ _ _ _ _ hine, hci]
            have hrne : rid ≠ st.constant_ids.getD i 0 := by
              rcases hfresh with ⟨p, hp, hpv⟩ | hfr
              · rw [← hpv]
                intro he
                exact hicache p hp he
              · have hib : st.constant_ids.getD i 0 ≤ st.id_gen :=
                  hids _ (getD_mem _ _ _ hilen)
                intro he
                rw [he] at hfr
                exact absurd hfr (Nat.not_lt.mpr hib)
            refine ⟨by rw [hlen2]; exact hilen, by rw [hival]; exact hipos, ?_, ?_⟩
            · intro p hp
              rw [hca2] at hp
              rw [hival]
              rcases hold p hp with hpo | hpv
              · exact hicache p hpo
              · rw [hpv]
                exact hrne
            · intro j hjlen hjne
              rw [hival]
              by_cases hj : j = idx
              · subst hj
                rw [hcid2, getD_set_self _ _ _ _ (by rw [hci]; exact hidx)]
                exact hrne
              · rw [hcid2, getD_set_ne _ _ _ _ _ (fun he => hj he.symm), hci]
                refine hidist j ?_ hjne
                rw [hlen2] at hjlen
                exact hjlen
        obtain ⟨named', hinv', hsub, hnew, hlen'⟩ := ih named st2 hinv2
          (fun p hp => by rw [hlen2]; exact hbound p (List.mem_cons_of_mem _ hp))
          hpw_tail
          (fun p hp => hdisj p (List.mem_cons_of_mem _ hp))
        refine ⟨named', by rw [hstep]; exact hinv', hsub, ?_, by rw [hstep, hlen', hlen2]⟩
        intro p hp w' v' nm' hpnamed
        rw [List.mem_cons] at hp
        rcases hp with hp | hp
        · exfalso
          rw [hp] at hpnamed
          have hn : constant.name = some nm' := congrArg Constant.name hpnamed
          rw [hname] at hn
          exact Option.noConfusion hn
        · exact hnew p hp w' v' nm' hpnamed
      · -- named: dedicated fresh id, never recorded in the cache
        set st1 : WriterState :=
          write_constant_scalar cfg { st with id_gen := st.id_gen + 1 }
            (st.id_gen + 1) value w (some nm) with hst1
        have hca1 : st1.cached_constants = st.cached_constants := by
          rw [hst1]
          exact @wcs_cached cfg { st with id_gen := st.id_gen + 1 }
            (st.id_gen + 1) value w (some nm)
        have hci1 : st1.constant_ids = st.constant_ids := by
          rw [hst1]
          exact @wcs_cids cfg { st with id_gen := st.id_gen + 1 }
            (st.id_gen + 1) value w (some nm)
        have hmono1 : st.id_gen + 1 ≤ st1.id_gen := by
          rw [hst1]
          exact @wcs_id_mono cfg { st with id_gen := st.id_gen + 1 }
            (st.id_gen + 1) value w (some nm)
        have hstep : write_scalar_constants cfg st ((idx, constant) :: tl)
            = write_scalar_constants cfg
              { st1 with constant_ids := st1.constant_ids.set idx (st.id_gen + 1) }
              tl := by
          rw [hst1]
          simp only [write_scalar_constants, hconst, hname, next_id]
        set st2 : WriterState :=
          { st1 with constant_ids := st1.constant_ids.set idx (st.id_gen + 1) }
          with hst2
        have hca2 : st2.cached_constants = st.cached_constants := by
          rw [hst2]
          exact hca1
        have hcid2 : st2.constant_ids = st1.constant_ids.set idx (st.id_gen + 1) := by
          rw [hst2]
        have hgen2 : st2.id_gen = st1.id_gen := by rw [hst2]
        have hlen2 : st2.constant_ids.length = st.constant_ids.length := by
          rw [hcid2, List.length_set, hci1]
        have hvalidx : st2.constant_ids.getD idx 0 = st.id_gen + 1 := by
          rw [hcid2]
          exact getD_set_self _ _ _ _ (by rw [hci1]; exact hidx)
        have hinv2 : ScalarPassInv (idx :: named) st2 := by
          refine ⟨?_, ?_, ?_⟩
          · intro p hp
            rw [hca2] at hp
            have hb := hcache p hp
            rw [hgen2]
            exact ⟨hb.1, Nat.le_trans hb.2 (Nat.le_trans (Nat.le_succ _) hmono1)⟩
          · intro id0 hid
            rw [hcid2] at hid
            rw [hgen2]
            rcases mem_of_mem_set _ _ _ _ hid with hm | hm
            · rw [hci1] at hm
              exact Nat.le_trans (hids id0 hm) (Nat.le_trans (Nat.le_succ _) hmono1)
            · rw [hm]
              exact hmono1
          · intro i hi
            rw [List.mem_cons] at hi
            rcases hi with hi | hi
            · subst hi
              refine ⟨by rw [hlen2]; exact hidx,
                by rw [hvalidx]; exact Nat.succ_le_succ (Nat.zero_le _), ?_, ?_⟩
              · intro p hp
                rw [hca2] at hp
                have hb := hcache p hp
                rw [hvalidx]
                intro he
                rw [he] at hb
                exact absurd hb.2 (Nat.not_succ_le_self _)
              · intro j hjlen hjne
                rw [hvalidx, hcid2, getD_set_ne _ _ _ _ _ (fun he => hjne he.symm), hci1]
                have hjb : st.constant_ids.getD j 0 ≤ st.id_gen := by
                  refine hids _ (getD_mem _ _ _ ?_)
                  rw [hlen2] at hjlen
                  exact hjlen
                intro he
                rw [he] at hjb
                exact absurd hjb (Nat.not_succ_le_self _)
            · obtain ⟨hilen, hipos, hicache, hidist⟩ := hnamed i hi
              have hine : idx ≠ i := by
                intro he
                exact hdisj (idx, constant) (List.mem_cons_self _ _) (by rw [he]; exact hi)
              have hival : st2.constant_ids.getD i 0 = st.constant_ids.getD i 0 := by
                rw [hcid2, getD_set_ne _ _ _ _ _ hine, hci1]
              refine ⟨by rw [hlen2]; exact hilen, by rw [hival]; exact hipos, ?_, ?_⟩
              · intro p hp
                rw [hca2] at hp
                rw [hival]
                exact hicache p hp
              · intro j hjlen hjne
                rw [hival]
                by_cases hj : j = idx
                · subst hj
                  rw [hvalidx]
                  have hib : st.constant_ids.getD i 0 ≤ st.id_gen :=
                    hids _ (getD_mem _ _ _ hilen)
                  intro he
                  rw [← he] at hib
                  exact absurd hib (Nat.not_succ_le_self _)
                · rw [hcid2, getD_set_ne _ _ _ _ _ (fun he => hj he.symm), hci1]
                  refine hidist j ?_ hjne
                  rw [hlen2] at hjlen
                  exact hjlen
        obtain ⟨named', hinv', hsub, hnew, hlen'⟩ := ih (idx :: named) st2 hinv2
          (fun p hp => by rw [hlen2]; exact hbound p (List.mem_cons_of_mem _ hp))
          hpw_tail
          (fun p hp hmem => by
            rw [List.mem_cons] at hmem
            rcases hmem with hmem | hmem
            · exact hpw_head p hp hmem.symm
            · exact hdisj p (List.mem_cons_of_mem _ hp) hmem)
        refine ⟨named', by rw [hstep]; exact hinv',
          fun i hi => hsub i (List.mem_cons_of_mem _ hi), ?_,
          by rw [hstep, hlen', hlen2]⟩
        intro p hp w' v' nm' hpnamed
        rw [List.mem_cons] at hp
        rcases hp with hp | hp
        · rw [hp]
          exact hsub idx (List.mem_cons_self _ _)
        · exact hnew p hp w' v' nm' hpnamed
    · -- composite: skipped by the scalar pass
      have hstep : write_scalar_constants cfg st ((idx, constant) :: tl)
          = write_scalar_constants cfg st tl := by
        simp only [write_scalar_constants, hconst]
      obtain ⟨named', hinv', hsub, hnew, hlen'⟩ := ih named st hinv
        (fun p hp => hbound p (List.mem_cons_of_mem _ hp))
        hpw_tail
        (fun p hp => hdisj p (List.mem_cons_of_mem _ hp))
      refine ⟨named', by rw [hstep]; exact hinv', hsub, ?_, by rw [hstep, hlen']⟩
      intro p hp w' v' nm' hpnamed
      rw [List.mem_cons] at hp
      rcases hp with hp | hp
      · exfalso
        rw [hp] at hpnamed
        have hn : constant.inner = .Scalar w' v' := congrArg Constant.inner hpnamed
        rw [hconst] at hn
        exact ConstantInner.noConfusion hn
      · exact hnew p hp w' v' nm' hpnamed

/-- C10: in the scalar-constant pass, a named scalar constant gets a
dedicated fresh id that is never recorded in `cached_constants`, so it
shares its id with no other constant: every cached id differs from it, and
the id assigned to any other constant (named or unnamed, equal value or
not) differs from it. -/
theorem named_scalar_constants_dedicated (cfg : Config) (constants : List Constant)
    (st : WriterState) (hcache : st.cached_constants = [])
    (hids : st.constant_ids = List.replicate constants.length 0) :
    ∀ i, (hilen : i < constants.length) → ∀ w v nm,
      constants[i] = Constant.mk (some nm) (.Scalar w v) →
      (∀ p ∈ (write_scalar_constants cfg st constants.enum).cached_constants,
        p.2 ≠ (write_scalar_constants cfg st constants.enum).constant_ids.getD i 0) ∧
      (∀ j, j < constants.length → j ≠ i →
        (write_scalar_constants cfg st constants.enum).constant_ids.getD j 0
          ≠ (write_scalar_constants cfg st constants.enum).constant_ids.getD i 0) := by
  intro i hilen w v nm hnamed
  have hlen : st.constant_ids.length = constants.length := by
    rw [hids, List.length_replicate]
  have hinv0 : ScalarPassInv [] st := by
    refine ⟨?_, ?_, by simp⟩
    · intro p hp; rw [hcache] at hp; simp at hp
    · intro id hid
      rw [hids] at hid
      rw [List.eq_of_mem_replicate hid]
      exact Nat.zero_le _
  have hmain := write_scalar_constants_inv cfg constants.enum [] st hinv0
    (fun p hp => by
      have hb := (mem_enumFrom_bounds constants 0 p hp).2
      rw [hlen]
      omega)
    (enumFrom_pairwise_ne constants 0)
    (by simp)
  obtain ⟨named', hinv', _, hnew, hlen'⟩ := hmain
  have hienum : (i, constants[i]) ∈ constants.enum := by
    have := enumFrom_get_mem constants 0 i hilen
    simpa using this
  have himem : i ∈ named' := hnew (i, constants[i]) hienum w v nm (by simp [hnamed])
  obtain ⟨_, _, hicache, hidist⟩ := hinv'.2.2 i himem
  refine ⟨hicache, ?_⟩
  intro j hj hjne
  exact hidist j (by rw [hlen', hlen]; exact hj) hjne

/-- C10 witness: with a named `5u32`, an unnamed `5u32` and a second named
`5u32`, the named constants' ids are not cached and all three ids are
pairwise distinct. -/
theorem named_scalar_constants_dedicated_witness :
    (∀ p ∈ (write_scalar_constants example_cfg
        { initial_state with constant_ids := List.replicate 3 0 }
        named_constants.enum).cached_constants,
      p.2 ≠ (write_scalar_constants example_cfg
        { initial_state with constant_ids := List.replicate 3 0 }
        named_constants.enum).constant_ids.getD 0 0) ∧
    (∀ j, j < 3 → j ≠ 0 →
      (write_scalar_constants example_cfg
        { initial_state with constant_ids := List.replicate 3 0 }
        named_constants.enum).constant_ids.getD j 0
        ≠ (write_scalar_constants example_cfg
          { initial_state with constant_ids := List.replicate 3 0 }
          named_constants.enum).constant_ids.getD 0 0) :=
  named_scalar_constants_dedicated example_cfg named_constants
    { initial_state with constant_ids := List.replicate 3 0 } rfl rfl
    0 (by decide) 4 (.Uint 5) "a" rfl

/-! ## C2 — reset makes `write` repeatable -/

/-- C2: `write(m); write(m)` appends identical word sequences: every
`write` begins with `reset()`, which discards all non-option state, so a
second `write` from the state the first one left behind returns exactly
the same result (and the same output words). -/
theorem write_reset_idempotent (cfg : Config) (st st1 : WriterState) (m : Module)
    (info : ModuleInfo) (po : Option PipelineOptions) (out : List Word)
    (h : write cfg st m info po [] = (.ok st1, out)) :
    write cfg st1 m info po [] = (.ok st1, out) := by
  have hst : write cfg st1 m info po [] = write cfg st m info po [] := rfl
  rw [hst, h]

/-- C2 witness: writing the empty module twice in a row produces the same
output both times. -/
theorem write_reset_idempotent_witness :
    write example_cfg initial_state example_module example_info none []
      = (.ok c2_state, c2_words) ∧
    write example_cfg c2_state example_module example_info none []
      = (.ok c2_state, c2_words) :=
  ⟨rfl, write_reset_idempotent example_cfg initial_state c2_state example_module
    example_info none c2_words rfl⟩

/-! ## C8 — entry point resolution and error returns -/

/-- C8: `write` with pipeline options whose (stage, name) matches no entry
point returns `EntryPointNotFound`; and on every error return of `write`
the caller's word vector is returned unchanged, since serialization
happens only after both layout passes succeed. -/
theorem write_error_paths (cfg : Config) (st : WriterState) (m : Module)
    (info : ModuleInfo) (words : List Word) :
    (∀ po : PipelineOptions,
      (∀ ep ∈ m.entry_points,
        ¬(po.shader_stage = ep.stage ∧ po.entry_point = ep.name)) →
      write cfg st m info (some po) words = (.error .EntryPointNotFound, words)) ∧
    (∀ po : Option PipelineOptions, ∀ e : Error,
      (write cfg st m info po words).1 = .error e →
      (write cfg st m info po words).2 = words) := by
  constructor
  · intro po hnone
    unfold write
    have hfind : m.entry_points.findIdx?
        (fun ep => po.shader_stage == ep.stage && po.entry_point == ep.name) 0 = none := by
      apply findIdx?_of_none
      intro ep hep
      by_contra hb
      rw [Bool.not_eq_false] at hb
      simp only [Bool.and_eq_true, beq_iff_eq] at hb
      exact hnone ep hep hb
    dsimp only
    rw [hfind]
  · intro po e h
    rcases po with _ | po
    · unfold write at h ⊢
      dsimp only at h ⊢
      rcases hw : write_logical_layout cfg (reset cfg st) m info none with e' | st'
      · simp only [hw]
      · rw [hw] at h
        exact absurd h (by simp)
    · unfold write at h ⊢
      dsimp only at h ⊢
      rcases hf : m.entry_points.findIdx?
          (fun ep => po.shader_stage == ep.stage && po.entry_point == ep.name) 0
        with _ | idx
      · rw [hf]
      · rw [hf] at h ⊢
        dsimp only at h ⊢
        rcases hw : write_logical_layout cfg (reset cfg st) m info (some idx) with e' | st'
        · simp only [hw]
        · rw [hw] at h
          exact absurd h (by simp)

/-- C8 witness: asking the vertex-only module for a fragment entry point
called `main` fails with `EntryPointNotFound` and leaves the caller's
words (here `[7, 7]`) untouched. -/
theorem write_error_paths_witness :
    write example_cfg initial_state ep_module ep_info
        (some ⟨.Fragment, "main"⟩) [7, 7] = (.error .EntryPointNotFound, [7, 7]) ∧
    (write example_cfg initial_state ep_module ep_info
        (some ⟨.Fragment, "main"⟩) [7, 7]).2 = [7, 7] :=
  ⟨(write_error_paths example_cfg initial_state ep_module ep_info [7, 7]).1
      ⟨.Fragment, "main"⟩ (by decide),
    (write_error_paths example_cfg initial_state ep_module ep_info [7, 7]).2
      (some ⟨.Fragment, "main"⟩) .EntryPointNotFound rfl⟩

/-! ## C4 — entry-point pruning of globals -/

theorem getD_append_lt {α : Type} :
    ∀ (l l' : List α) (i : Nat) (d : α), i < l.length →
      (l ++ l').getD i d = l.getD i d
  | _ :: _, _, 0, _, _ => rfl
  | _ :: t, l', i + 1, d, h => getD_append_lt t l' i d (Nat.lt_of_succ_lt_succ h)
  | [], _, _, _, h => by simp at h

theorem getD_append_len {α : Type} :
    ∀ (l : List α) (x : α) (l' : List α) (d : α),
      (l ++ x :: l').getD l.length d = x
  | [], _, _, _ => rfl
  | _ :: t, x, l', d => getD_append_len t x l' d

theorem enumFrom_get_fst {α : Type} :
    ∀ (l : List α) (s i : Nat) (h : i < (l.enumFrom s).length),
      ((l.enumFrom s).get ⟨i, h⟩).1 = s + i := by
  intro l
  induction l with
  | nil => intro s i h; simp [List.enumFrom] at h
  | cons a t ih =>
    intro s i h
    rcases i with _ | i
    · simp [List.enumFrom]
    · have hi : i < ((t.enumFrom (s + 1)).length) := by
        simp only [List.enumFrom, List.length_cons] at h
        exact Nat.lt_of_succ_lt_succ h
      have := ih (s + 1) i hi
      simp only [List.enumFrom, List.get]
      rw [this]
      omega

theorem tf_ite_decorate {st : WriterState} {b : Bool} {id : Word}
    {d : Decoration} {ops : List Word} :
    TypeFrame st (if b then decorate st id d ops else st) := by
  split
  · exact tf_decorate
  · exact TypeFrame.rfl'

/-- `write_global_variable` characterized: the state change is a type
frame (fresh ids and non-`OpVariable` declarations only; the globals
table, the constant tables and the extensions section are untouched), and
the returned instruction is the `OpVariable` carrying the freshly issued
id. -/
theorem wgv_spec (cfg : Config) (st : WriterState) (m : Module)
    (var : IrGlobalVariable) (st1 : WriterState) (inst : Instruction) (id : Word)
    (h : write_global_variable cfg st m var = (st1, inst, id)) :
    TypeFrame st st1 ∧ id = st.id_gen + 1 ∧ inst.is_op_variable = true ∧
    inst.op_variable_id = some id := by
  unfold write_global_variable at h
  simp only [next_id] at h
  rcases hgp : get_pointer_id { st with id_gen := st.id_gen + 1 } m.types var.ty
      (map_storage_class var.storage_class) with ⟨stA, ptid⟩
  rw [hgp] at h
  dsimp only at h
  simp only [Prod.mk.injEq] at h
  obtain ⟨hst, hinst, hid⟩ := h
  subst hst
  subst hinst
  subst hid
  have f2 : TypeFrame { st with id_gen := st.id_gen + 1 } stA := by
    have h2 := @tf_get_pointer_id { st with id_gen := st.id_gen + 1 } m.types var.ty
      (map_storage_class var.storage_class)
    rw [hgp] at h2
    exact h2
  refine ⟨?_, rfl, rfl, rfl⟩
  refine TypeFrame.trans' (TypeFrame.trans' tf_id_bump f2) ?_
  refine TypeFrame.trans'
    (@tf_push_name_if cfg.flags.debug stA (st.id_gen + 1) var.name) ?_
  rcases var.binding with _ | rb <;>
    rcases var.storage_class with _ | _ | _ | _ | acc | _ | _ <;>
    dsimp only <;>
    first
      | exact TypeFrame.rfl'
      | exact TypeFrame.trans' tf_decorate tf_decorate
      | (split <;>
          first
            | exact TypeFrame.trans' tf_ite_decorate tf_decorate
            | exact tf_ite_decorate)
      | (refine TypeFrame.trans' ?_ (TypeFrame.trans' tf_decorate tf_decorate)
         split <;>
          first
            | exact TypeFrame.trans' tf_ite_decorate tf_decorate
            | exact tf_ite_decorate)

/-- The induction invariant of the globals pass with a selected entry
point: one `global_variables` entry is appended per processed global,
earlier entries and declarations are preserved, the appended entry is the
dummy exactly for pruned (unused) globals, and every `OpVariable`
appended to the declarations buffer carries the id recorded for a used
global. -/
theorem write_all_globals_spec (cfg : Config) (m : Module) (info : ModuleInfo)
    (i : Nat) :
    ∀ (gs : List (Nat × IrGlobalVariable)) (st : WriterState),
      (write_all_globals cfg m info (some i) st gs).global_variables.length
        = st.global_variables.length + gs.length ∧
      (∀ h, h < st.global_variables.length →
        (write_all_globals cfg m info (some i) st gs).global_variables.getD h
            GlobalVariable.dummy
          = st.global_variables.getD h GlobalVariable.dummy) ∧
      (∀ j, (hj : j < gs.length) →
        (((info.get_entry_point i).global_uses.getD (gs.get ⟨j, hj⟩).1 false) = false →
          (write_all_globals cfg m info (some i) st gs).global_variables.getD
              (st.global_variables.length + j) GlobalVariable.dummy
            = GlobalVariable.dummy) ∧
        (((info.get_entry_point i).global_uses.getD (gs.get ⟨j, hj⟩).1 false) = true →
          (write_all_globals cfg m info (some i) st gs).global_variables.getD
              (st.global_variables.length + j) GlobalVariable.dummy
            ≠ GlobalVariable.dummy)) ∧
      (∃ ds,
        (write_all_globals cfg m info (some i) st gs).logical_layout.declarations
          = st.logical_layout.declarations ++ ds ∧
        ∀ inst ∈ ds, inst.is_op_variable = true →
          ∃ j, ∃ hj : j < gs.length,
            ((info.get_entry_point i).global_uses.getD (gs.get ⟨j, hj⟩).1 false) = true ∧
            inst.op_variable_id = some
              (((write_all_globals cfg m info (some i) st gs).global_variables.getD
                  (st.global_variables.length + j) GlobalVariable.dummy).id)) := by
  intro gs
  induction gs with
  | nil =>
    intro st
    refine ⟨by simp [write_all_globals], fun h _ => rfl, ?_, ⟨[], by simp [write_all_globals], ?_⟩⟩
    · intro j hj
      exact absurd hj (Nat.not_lt_zero j)
    · intro inst hmem
      simp at hmem
  | cons hd rest ih =>
    intro st
    rcases hd with ⟨handle, var⟩
    rcases hu : (info.get_entry_point i).global_uses.getD handle false with _ | _
    · -- pruned: the entry point does not use this global
      have hu' : (info.get_entry_point i).global_uses[handle]?.getD false = false := by
        rw [← List.getD_eq_getElem?_getD]
        exact hu
      have hstep : write_all_globals cfg m info (some i) st ((handle, var) :: rest)
          = write_all_globals cfg m info (some i)
              { st with global_variables := st.global_variables ++ [GlobalVariable.dummy] }
              rest := by
        simp [write_all_globals, hu']
      obtain ⟨ihlen, ihold, ihnew, ds, hds, hvars⟩ :=
        ih { st with global_variables := st.global_variables ++ [GlobalVariable.dummy] }
      have hNlen : ({ st with
          global_variables := st.global_variables ++ [GlobalVariable.dummy] }
            : WriterState).global_variables.length
          = st.global_variables.length + 1 := by simp
      refine ⟨?_, ?_, ?_, ?_⟩
      · rw [hstep, ihlen, hNlen, List.length_cons]
        omega
      · intro h hh
        rw [hstep, ihold h (by rw [hNlen]; omega)]
        exact getD_append_lt _ _ _ _ hh
      · intro j hj
        rcases j with _ | j
        · constructor
          · intro _
            rw [hstep, Nat.add_zero,
              ihold st.global_variables.length (by rw [hNlen]; omega)]
            exact getD_append_len _ _ _ _
          · intro hused
            rw [List.get] at hused
            rw [hu] at hused
            exact absurd hused (by simp)
        · have hj' : j < rest.length := Nat.lt_of_succ_lt_succ hj
          have hidx : st.global_variables.length + (j + 1)
              = st.global_variables.length + 1 + j := by omega
          have := ihnew j hj'
          rw [hNlen] at this
          rw [List.get]
          constructor
          · intro hf
            rw [hstep, hidx]
            exact this.1 hf
          · intro ht
            rw [hstep, hidx]
            exact this.2 ht
      · refine ⟨ds, ?_, ?_⟩
        · rw [hstep, hds]
        · intro inst hmem hvar
          obtain ⟨j, hj, hused, hval⟩ := hvars inst hmem hvar
          refine ⟨j + 1, Nat.succ_lt_succ hj, ?_, ?_⟩
          · rw [List.get]
            exact hused
          · rw [hstep]
            have hidx : st.global_variables.length + (j + 1)
                = st.global_variables.length + 1 + j := by omega
            rw [hidx]
            rw [hNlen] at hval
            exact hval
    · -- used: a real OpVariable is written and recorded
      rcases hw : write_global_variable cfg st m var with ⟨st1, inst0, id0⟩
      obtain ⟨hfr, hid0, hov, hovid⟩ := wgv_spec cfg st m var st1 inst0 id0 hw
      have hu' : (info.get_entry_point i).global_uses[handle]?.getD false = true := by
        rw [← List.getD_eq_getElem?_getD]
        exact hu
      have hstep : write_all_globals cfg m info (some i) st ((handle, var) :: rest)
          = write_all_globals cfg m info (some i)
              { push_decl st1 inst0 with
                global_variables :=
                  (push_decl st1 inst0).global_variables ++ [GlobalVariable.new id0] }
              rest := by
        simp [write_all_globals, hu', hw]
      obtain ⟨ihlen, ihold, ihnew, ds, hds, hvars⟩ :=
        ih { push_decl st1 inst0 with
              global_variables :=
                (push_decl st1 inst0).global_variables ++ [GlobalVariable.new id0] }
      have hgv1 : (push_decl st1 inst0).global_variables = st.global_variables := by
        simp only [push_decl]
        exact hfr.gvars
      have hNlen : ({ push_decl st1 inst0 with
          global_variables :=
            (push_decl st1 inst0).global_variables ++ [GlobalVariable.new id0] }
            : WriterState).global_variables.length
          = st.global_variables.length + 1 := by
        simp [hgv1]
      have hNgv : ({ push_decl st1 inst0 with
          global_variables :=
            (push_decl st1 inst0).global_variables ++ [GlobalVariable.new id0] }
            : WriterState).global_variables
          = st.global_variables ++ [GlobalVariable.new id0] := by
        simp [hgv1]
      have hne : GlobalVariable.new id0 ≠ GlobalVariable.dummy := by
        rw [hid0]
        intro he
        have := congrArg GlobalVariable.id he
        simp [GlobalVariable.new, GlobalVariable.dummy] at this
      have hentry : (write_all_globals cfg m info (some i)
            { push_decl st1 inst0 with
              global_variables :=
                (push_decl st1 inst0).global_variables ++ [GlobalVariable.new id0] }
            rest).global_variables.getD st.global_variables.length GlobalVariable.dummy
          = GlobalVariable.new id0 := by
        rw [ihold st.global_variables.length (by rw [hNlen]; omega), hNgv]
        exact getD_append_len _ _ _ _
      refine ⟨?_, ?_, ?_, ?_⟩
      · rw [hstep, ihlen, hNlen, List.length_cons]
        omega
      · intro h hh
        rw [hstep, ihold h (by rw [hNlen]; omega), hNgv]
        exact getD_append_lt _ _ _ _ hh
      · intro j hj
        rcases j with _ | j
        · constructor
          · intro hf
            rw [List.get] at hf
            rw [hu] at hf
            exact absurd hf (by simp)
          · intro _
            rw [hstep, Nat.add_zero, hentry]
            exact hne
        · have hj' : j < rest.length := Nat.lt_of_succ_lt_succ hj
          have hidx : st.global_variables.length + (j + 1)
              = st.global_variables.length + 1 + j := by omega
          have := ihnew j hj'
          rw [hNlen] at this
          rw [List.get]
          constructor
          · intro hf
            rw [hstep, hidx]
            exact this.1 hf
          · intro ht
            rw [hstep, hidx]
            exact this.2 ht
      · obtain ⟨new0, hnew0, hnew0v⟩ := hfr.decls
        have hdeclN : ({ push_decl st1 inst0 with
            global_variables :=
              (push_decl st1 inst0).global_variables ++ [GlobalVariable.new id0] }
              : WriterState).logical_layout.declarations
            = st.logical_layout.declarations ++ (new0 ++ [inst0]) := by
          simp only [push_decl, hnew0]
          simp [List.append_assoc]
        refine ⟨(new0 ++ [inst0]) ++ ds, ?_, ?_⟩
        · rw [hstep, hds, hdeclN, List.append_assoc]
        · intro inst hmem hvar
          rw [List.mem_append] at hmem
          rcases hmem with hmem | hmem
          · rw [List.mem_append] at hmem
            rcases hmem with hmem | hmem
            · exact absurd hvar (by rw [hnew0v inst hmem]; simp)
            · rw [List.mem_singleton] at hmem
              subst hmem
              refine ⟨0, Nat.succ_pos _, ?_, ?_⟩
              · rw [List.get]
                exact hu
              · rw [hstep, Nat.add_zero, hentry, hovid]
                rfl
          · obtain ⟨j, hj, hused, hval⟩ := hvars inst hmem hvar
            refine ⟨j + 1, Nat.succ_lt_succ hj, ?_, ?_⟩
            · rw [List.get]
              exact hused
            · rw [hstep]
              have hidx : st.global_variables.length + (j + 1)
                  = st.global_variables.length + 1 + j := by omega
              rw [hidx]
              rw [hNlen] at hval
              exact hval

/-- C4: with pipeline options selecting entry point `i`, the globals pass
leaves `global_variables` with exactly one entry per IR global, the entry
at handle `h` is the dummy record exactly when that entry point does not
use global `h`, and every `OpVariable` appended to the declarations buffer
is the one recorded for a used global — no `OpVariable` is emitted for an
unused global. -/
theorem entry_point_pruning (cfg : Config) (m : Module) (info : ModuleInfo)
    (i : Nat) (st : WriterState) (hgv : st.global_variables = []) :
    (write_all_globals cfg m info (some i) st
        m.global_variables.enum).global_variables.length
      = m.global_variables.length ∧
    (∀ h, h < m.global_variables.length →
      ((write_all_globals cfg m info (some i) st
          m.global_variables.enum).global_variables.getD h GlobalVariable.dummy
        = GlobalVariable.dummy
        ↔ (info.get_entry_point i).global_uses.getD h false = false)) ∧
    (∃ ds,
      (write_all_globals cfg m info (some i) st
          m.global_variables.enum).logical_layout.declarations
        = st.logical_layout.declarations ++ ds ∧
      ∀ inst ∈ ds, inst.is_op_variable = true →
        ∃ h, h < m.global_variables.length ∧
          (info.get_entry_point i).global_uses.getD h false = true ∧
          inst.op_variable_id = some
            (((write_all_globals cfg m info (some i) st
                m.global_variables.enum).global_variables.getD h
                GlobalVariable.dummy).id)) := by
  obtain ⟨hlen, _, hnew, ds, hds, hvars⟩ :=
    write_all_globals_spec cfg m info i m.global_variables.enum st
  have hzero : st.global_variables.length = 0 := by rw [hgv]; rfl
  have helen : m.global_variables.enum.length = m.global_variables.length := by
    simp [List.enum]
  refine ⟨?_, ?_, ?_⟩
  · rw [hlen, hzero, helen, Nat.zero_add]
  · intro h hh
    have hh' : h < m.global_variables.enum.length := by rw [helen]; exact hh
    have hfst : (m.global_variables.enum.get ⟨h, hh'⟩).1 = h :=
      (enumFrom_get_fst m.global_variables 0 h hh').trans (Nat.zero_add h)
    have := hnew h hh'
    rw [hfst, hzero, Nat.zero_add] at this
    constructor
    · intro hd
      rcases hu : (info.get_entry_point i).global_uses.getD h false with _ | _
      · rfl
      · exact absurd hd (this.2 hu)
    · intro hf
      exact this.1 hf
  · refine ⟨ds, hds, ?_⟩
    intro inst hmem hvar
    obtain ⟨j, hj, hused, hval⟩ := hvars inst hmem hvar
    have hfst : (m.global_variables.enum.get ⟨j, hj⟩).1 = j :=
      (enumFrom_get_fst m.global_variables 0 j hj).trans (Nat.zero_add j)
    rw [hfst] at hused
    rw [hzero, Nat.zero_add] at hval
    exact ⟨j, by rw [helen] at hj; exact hj, hused, hval⟩

/-- C4 witness: in the two-global module whose entry point 0 uses only
global 0, the globals table has two entries, entry 1 is the dummy, entry 0
is not, and every emitted `OpVariable` is the one recorded for global
0. -/
theorem entry_point_pruning_witness :
    initial_state.global_variables = [] ∧
    ((write_all_globals example_cfg pruning_module pruning_info (some 0) initial_state
        pruning_module.global_variables.enum).global_variables.length
      = pruning_module.global_variables.length ∧
    (∀ h, h < pruning_module.global_variables.length →
      ((write_all_globals example_cfg pruning_module pruning_info (some 0) initial_state
          pruning_module.global_variables.enum).global_variables.getD h
          GlobalVariable.dummy
        = GlobalVariable.dummy
        ↔ (pruning_info.get_entry_point 0).global_uses.getD h false = false)) ∧
    (∃ ds,
      (write_all_globals example_cfg pruning_module pruning_info (some 0) initial_state
          pruning_module.global_variables.enum).logical_layout.declarations
        = initial_state.logical_layout.declarations ++ ds ∧
      ∀ inst ∈ ds, inst.is_op_variable = true →
        ∃ h, h < pruning_module.global_variables.length ∧
          (pruning_info.get_entry_point 0).global_uses.getD h false = true ∧
          inst.op_variable_id = some
            (((write_all_globals example_cfg pruning_module pruning_info (some 0)
                initial_state pruning_module.global_variables.enum).global_variables.getD
                h GlobalVariable.dummy).id))) :=
  ⟨rfl, entry_point_pruning example_cfg pruning_module pruning_info 0 initial_state rfl⟩


/-! ## C9 — the storage-buffer storage-class extension

Every phase of `write_logical_layout` after step 1 leaves the
`extensions` section untouched; the lemmas below establish that
projection equality function by function. -/

@[simp]
theorem exts_push_decl (st : WriterState) (i : Instruction) :
    (push_decl st i).logical_layout.extensions = st.logical_layout.extensions := rfl

@[simp]
theorem exts_push_debug (st : WriterState) (i : Instruction) :
    (push_debug st i).logical_layout.extensions = st.logical_layout.extensions := rfl

@[simp]
theorem exts_push_annot (st : WriterState) (i : Instruction) :
    (push_annot st i).logical_layout.extensions = st.logical_layout.extensions := rfl

@[simp]
theorem exts_decorate (st : WriterState) (id : Word) (d : Decoration)
    (ops : List Word) :
    (decorate st id d ops).logical_layout.extensions
      = st.logical_layout.extensions := rfl

@[simp]
theorem exts_next_id (st : WriterState) :
    ((next_id st).1).logical_layout.extensions = st.logical_layout.extensions := rfl

@[simp]
theorem exts_push_name_if (c : Bool) (st : WriterState) (id : Word)
    (nm : Option String) :
    (push_name_if c st id nm).logical_layout.extensions
      = st.logical_layout.extensions := by
  unfold push_name_if
  split
  · split <;> rfl
  · rfl

theorem require_any_exts (cfg : Config) (st : WriterState) (what : String)
    (caps : List Capability) (st1 : WriterState)
    (h : require_any cfg st what caps = .ok st1) :
    st1.logical_layout.extensions = st.logical_layout.extensions := by
  unfold require_any at h
  rcases caps with _ | ⟨first, rest⟩
  · cases h
    rfl
  · dsimp only at h
    rcases hav : cfg.capabilities_available with _ | available
    · rw [hav] at h
      dsimp only at h
      cases h
      rfl
    · rw [hav] at h
      dsimp only at h
      rcases hf : (first :: rest).find? (fun cap => available.contains cap) with _ | cap
      · rw [hf] at h
        exact Except.noConfusion h
      · rw [hf] at h
        dsimp only at h
        cases h
        rfl

theorem gcs_exts (cfg : Config) (st : WriterState) (v : ScalarValue) (w : Nat) :
    (get_constant_scalar cfg st v w).1.logical_layout.extensions
      = st.logical_layout.extensions := by
  unfold get_constant_scalar
  split
  · rfl
  · exact (@tf_write_constant_scalar cfg { st with id_gen := st.id_gen + 1 }
      (st.id_gen + 1) v w none).exts

theorem wsc_exts (cfg : Config) :
    ∀ (l : List (Nat × Constant)) (st : WriterState),
      (write_scalar_constants cfg st l).logical_layout.extensions
        = st.logical_layout.extensions := by
  intro l
  induction l with
  | nil => intro st; rfl
  | cons hd tl ih =>
    intro st
    rcases hd with ⟨handle, constant⟩
    unfold write_scalar_constants
    rcases constant.inner with ⟨w, v⟩ | ⟨ty, comps⟩
    · dsimp only
      rcases constant.name with _ | nm
      · dsimp only
        rw [ih]
        dsimp only
        rw [gcs_exts]
      · dsimp only
        rw [ih]
        dsimp only
        exact (@tf_write_constant_scalar cfg { st with id_gen := st.id_gen + 1 }
          (st.id_gen + 1) v w (some nm)).exts
    · dsimp only
      exact ih st

theorem sml_exts (cfg : Config) (arena : List Ty) (sid : Word) :
    ∀ (l : List (Nat × StructMember)) (st : WriterState) (mids : List Word),
      (struct_member_loop cfg arena sid (st, mids) l).1.logical_layout.extensions
        = st.logical_layout.extensions := by
  intro l
  induction l with
  | nil => intro st mids; rfl
  | cons hd tl ih =>
    intro st mids
    rcases hd with ⟨index, member⟩
    unfold struct_member_loop
    dsimp only
    rw [ih]
    rw [tf_get_type_id.exts]
    split
    · simp only [exts_push_annot]
      split
      · split <;> simp
      · simp
    · split
      · split <;> simp
      · simp

theorem rii_exts (st : WriterState) (inner : TypeInner) (st1 : WriterState)
    (h : request_image_capabilities st inner = .ok st1) :
    st1.logical_layout.extensions = st.logical_layout.extensions := by
  cases h
  rfl

theorem wtda_exts (cfg : Config) (st : WriterState) (arena : List Ty)
    (handle : Nat) (st1 : WriterState) (id : Word)
    (h : write_type_declaration_arena cfg st arena handle = .ok (st1, id)) :
    st1.logical_layout.extensions = st.logical_layout.extensions := by
  unfold write_type_declaration_arena at h
  dsimp only [request_image_capabilities] at h
  rcases hml : make_local (arena.getD handle dummy_ty).inner with _ | lt
  · -- no projection: struct or unreachable
    rw [hml] at h
    dsimp only at h
    rcases hin : (arena.getD handle dummy_ty).inner with ⟨k, w⟩ | ⟨sz, k, w⟩
      | ⟨c, r, w⟩ | ⟨b, sc⟩ | ⟨top, members⟩ <;> rw [hin] at h <;> dsimp only at h
    · exact Except.noConfusion h
    · exact Except.noConfusion h
    · exact Except.noConfusion h
    · exact Except.noConfusion h
    · cases h
      rw [exts_push_name_if, exts_push_decl, sml_exts]
      split <;> simp
  · -- a LocalType projection exists
    rw [hml] at h
    dsimp only at h
    rcases hlk : lookupA st.lookup_type (.Local lt) with _ | id0 <;>
      rw [hlk] at h <;> dsimp only at h
    · -- fresh local type
      cases h
      rw [exts_push_name_if, tf_write_local.exts]
      rfl
    · -- interning hit
      cases h
      simp

theorem wat_exts (cfg : Config) (m : Module) :
    ∀ (l : List (Nat × Ty)) (st st1 : WriterState),
      write_all_types cfg m st l = .ok st1 →
      st1.logical_layout.extensions = st.logical_layout.extensions := by
  intro l
  induction l with
  | nil =>
    intro st st1 h
    cases h
    rfl
  | cons hd tl ih =>
    intro st st1 h
    rcases hd with ⟨handle, ty⟩
    unfold write_all_types at h
    rcases hty : write_type_declaration_arena cfg st m.types handle with e | ⟨stA, tid⟩ <;>
      rw [hty] at h <;> dsimp only at h
    · exact Except.noConfusion h
    · exact (ih stA st1 h).trans (wtda_exts cfg st m.types handle stA tid hty)

theorem wccc_exts (st : WriterState) (id : Word) (ty : Nat)
    (components : List Nat) :
    (write_constant_composite st id ty components).logical_layout.extensions
      = st.logical_layout.extensions := by
  unfold write_constant_composite
  dsimp only
  rw [exts_push_decl, tf_get_type_id.exts]

theorem wcc_exts (cfg : Config) :
    ∀ (l : List (Nat × Constant)) (st : WriterState),
      (write_composite_constants cfg st l).logical_layout.extensions
        = st.logical_layout.extensions := by
  intro l
  induction l with
  | nil => intro st; rfl
  | cons hd tl ih =>
    intro st
    rcases hd with ⟨handle, constant⟩
    unfold write_composite_constants
    rcases constant.inner with ⟨w, v⟩ | ⟨ty, comps⟩
    · dsimp only
      exact ih st
    · dsimp only
      rw [ih, wccc_exts, exts_push_name_if]
      rfl

theorem wag_exts (cfg : Config) (m : Module) (info : ModuleInfo)
    (ep : Option Nat) :
    ∀ (l : List (Nat × IrGlobalVariable)) (st : WriterState),
      (write_all_globals cfg m info ep st l).logical_layout.extensions
        = st.logical_layout.extensions := by
  intro l
  induction l with
  | nil => intro st; rfl
  | cons hd tl ih =>
    intro st
    rcases hd with ⟨handle, var⟩
    unfold write_all_globals
    dsimp only
    split
    · rw [ih]
    · rw [ih]
      dsimp only
      rw [exts_push_decl]
      exact (wgv_spec cfg st m var _ _ _ rfl).1.exts

theorem wv_exts (cfg : Config) (st : WriterState) (m : Module)
    (cls : SpvStorageClass) (nm : Option String) (ty : Nat) (b : Binding)
    (st1 : WriterState) (id : Word)
    (h : write_varying cfg st m cls nm ty b = .ok (st1, id)) :
    st1.logical_layout.extensions = st.logical_layout.extensions := by
  unfold write_varying at h
  dsimp only at h
  set stB := push_name_if (cfg.flags.debug && cfg.flags.label_varyings)
      (push_decl (get_pointer_id (next_id st).1 m.types ty cls).1
        (Instruction.variable'
          (get_pointer_id (next_id st).1 m.types ty cls).2
          (next_id st).2 cls none))
      (next_id st).2 nm with hstB
  have hB : stB.logical_layout.extensions = st.logical_layout.extensions := by
    rw [hstB]
    simp [tf_get_pointer_id.exts]
  rcases b with ⟨loc, interp, samp⟩ | bi
  · -- Location
    dsimp only at h
    rcases samp with _ | samp
    · dsimp only at h
      cases h
      split <;> simp [hB]
    · rcases samp with _ | _ | _ <;> dsimp only at h
      · cases h
        split <;> simp [hB]
      · cases h
        split <;> simp [hB]
      · split at h
        · exact Except.noConfusion h
        · rename_i stC hra
          cases h
          rw [exts_decorate, require_any_exts _ _ _ _ _ hra]
          split <;> simp [hB]
  · -- BuiltIn
    dsimp only at h
    rcases bi <;> dsimp only at h <;>
      first
        | (cases h; rw [exts_decorate]; exact hB)
        | (rcases hra : require_any cfg stB "`view_index` built-in" [.MultiView]
            with e | stC <;> rw [hra] at h <;> (try dsimp only at h) <;>
            first
              | exact Except.noConfusion h
              | (cases h; rw [exts_decorate, require_any_exts _ _ _ _ _ hra]; exact hB))
        | (rcases hra : require_any cfg stB "`primitive_index` built-in" [.Geometry]
            with e | stC <;> rw [hra] at h <;> (try dsimp only at h) <;>
            first
              | exact Except.noConfusion h
              | (cases h; rw [exts_decorate, require_any_exts _ _ _ _ _ hra]; exact hB))
        | (rcases hra : require_any cfg stB "`sample_index` built-in"
              [.SampleRateShading]
            with e | stC <;> rw [hra] at h <;> (try dsimp only at h) <;>
            first
              | exact Except.noConfusion h
              | (cases h; rw [exts_decorate, require_any_exts _ _ _ _ _ hra]; exact hB))

theorem wf_locals_exts (cfg : Config) (m : Module) :
    ∀ (l : List (Nat × IrLocalVariable)) (st : WriterState) (f : SpvFunction),
      (wf_locals cfg m (st, f) l).1.logical_layout.extensions
        = st.logical_layout.extensions := by
  intro l
  induction l with
  | nil => intro st f; rfl
  | cons hd tl ih =>
    intro st f
    rcases hd with ⟨handle, lvar⟩
    unfold wf_locals
    dsimp only
    rw [ih]
    simp [tf_get_pointer_id.exts]

theorem wf_arg_members_exts (cfg : Config) (m : Module) (cls : SpvStorageClass) :
    ∀ (l : List StructMember) (st : WriterState) (pre : Block)
      (vids cids : List Word) (st1 : WriterState) (pre1 : Block) (v1 c1 : List Word),
      wf_arg_members cfg m cls (st, pre, vids, cids) l = .ok (st1, pre1, v1, c1) →
      st1.logical_layout.extensions = st.logical_layout.extensions := by
  intro l
  induction l with
  | nil =>
    intro st pre vids cids st1 pre1 v1 c1 h
    cases h
    rfl
  | cons member tl ih =>
    intro st pre vids cids st1 pre1 v1 c1 h
    unfold wf_arg_members at h
    dsimp only at h
    rcases hmb : member.binding with _ | binding <;> rw [hmb] at h <;> dsimp only at h
    · exact Except.noConfusion h
    · rcases hwv : write_varying cfg (get_type_id st (.Handle member.ty)).1 m cls
          member.name member.ty binding with e | ⟨stA, vid⟩ <;>
        rw [hwv] at h <;> dsimp only at h
      · exact Except.noConfusion h
      · refine (ih _ _ _ _ _ _ _ _ h).trans ?_
        rw [exts_next_id, wv_exts _ _ _ _ _ _ _ _ _ hwv, tf_get_type_id.exts]

theorem wf_args_exts (cfg : Config) (m : Module) (itf : Option ShaderStage) :
    ∀ (l : List IrFunctionArgument) (acc acc1 : ArgAcc),
      wf_args cfg m itf acc l = .ok acc1 →
      acc1.st.logical_layout.extensions = acc.st.logical_layout.extensions := by
  intro l
  induction l with
  | nil =>
    intro acc acc1 h
    cases h
    rfl
  | cons argument tl ih =>
    intro acc acc1 h
    unfold wf_args at h
    simp only [TypeInner.is_handle, Bool.false_eq_true, if_false] at h
    rcases itf with _ | stage
    · -- no interface: OpFunctionParameter
      dsimp only at h
      refine (ih _ _ h).trans ?_
      simp [tf_get_type_id.exts]
    · -- entry point interface
      dsimp only at h
      rcases hab : argument.binding with _ | binding <;> rw [hab] at h <;>
        dsimp only at h
      · -- struct argument decomposed into member varyings
        rcases hin : (m.types.getD argument.ty dummy_ty).inner with ⟨k, w⟩
          | ⟨sz, k, w⟩ | ⟨c, r, w⟩ | ⟨b, sc⟩ | ⟨top, members⟩ <;> rw [hin] at h <;>
          dsimp only at h
        · exact Except.noConfusion h
        · exact Except.noConfusion h
        · exact Except.noConfusion h
        · exact Except.noConfusion h
        · rcases ham : wf_arg_members cfg m SpvStorageClass.Input
              ((next_id (get_type_id acc.st (.Handle argument.ty)).1).1, acc.prelude,
                acc.varying_ids, []) members with e | ⟨stA, preA, vA, cA⟩ <;>
            rw [ham] at h <;> dsimp only at h
          · exact Except.noConfusion h
          · refine (ih _ _ h).trans ?_
            dsimp only
            rw [wf_arg_members_exts _ _ _ _ _ _ _ _ _ _ _ _ ham]
            simp [tf_get_type_id.exts]
      · -- bound argument: one Input varying
        rcases hwv : write_varying cfg (get_type_id acc.st (.Handle argument.ty)).1 m
            SpvStorageClass.Input argument.name argument.ty binding
            with e | ⟨stA, vid⟩ <;> rw [hwv] at h <;> dsimp only at h
        · exact Except.noConfusion h
        · refine (ih _ _ h).trans ?_
          dsimp only
          rw [exts_next_id, wv_exts _ _ _ _ _ _ _ _ _ hwv, tf_get_type_id.exts]

theorem wf_result_members_exts (cfg : Config) (m : Module) (cls : SpvStorageClass) :
    ∀ (l : List StructMember) (st : WriterState) (hps : Bool)
      (vids : List Word) (res : List ResultMember) (st1 : WriterState) (hps1 : Bool)
      (v1 : List Word) (res1 : List ResultMember),
      wf_result_members cfg m cls (st, hps, vids, res) l = .ok (st1, hps1, v1, res1) →
      st1.logical_layout.extensions = st.logical_layout.extensions := by
  intro l
  induction l with
  | nil =>
    intro st hps vids res st1 hps1 v1 res1 h
    cases h
    rfl
  | cons member tl ih =>
    intro st hps vids res st1 hps1 v1 res1 h
    unfold wf_result_members at h
    dsimp only at h
    rcases hmb : member.binding with _ | binding <;> rw [hmb] at h <;> dsimp only at h
    · exact Except.noConfusion h
    · rcases hwv : write_varying cfg (get_type_id st (.Handle member.ty)).1 m cls
          member.name member.ty binding with e | ⟨stA, vid⟩ <;>
        rw [hwv] at h <;> dsimp only at h
      · exact Except.noConfusion h
      · refine (ih _ _ _ _ _ _ _ _ h).trans ?_
        rw [wv_exts _ _ _ _ _ _ _ _ _ hwv, tf_get_type_id.exts]

theorem wf_global_loads_exts (m : Module) (info : FunctionInfo) :
    ∀ (l : List (Nat × IrGlobalVariable)) (st : WriterState) (pre : Block),
      (wf_global_loads m info (st, pre) l).1.logical_layout.extensions
        = st.logical_layout.extensions := by
  intro l
  induction l with
  | nil => intro st pre; rfl
  | cons hd tl ih =>
    intro st pre
    rcases hd with ⟨handle, var⟩
    unfold wf_global_loads
    dsimp only
    split
    · exact ih st pre
    · rw [ih]
      simp [tf_get_type_id.exts]

theorem wf_resolve_exts (cfg : Config) (m : Module) (f : IrFunction)
    (itf : Option ShaderStage) (acc : ArgAcc) (st : WriterState)
    (st1 : WriterState) (pre : Block) (vids : List Word)
    (eps : List ResultMember) (rtid : Word)
    (h : wf_resolve cfg m f itf acc st = .ok (st1, pre, vids, eps, rtid)) :
    st1.logical_layout.extensions = st.logical_layout.extensions := by
  unfold wf_resolve at h
  rcases hres : f.result with _ | result <;> rw [hres] at h <;> dsimp only at h
  · cases h
    rfl
  · rcases itf with _ | stage <;> dsimp only at h
    · cases h
      rw [tf_get_type_id.exts]
    · rcases hrb : result.binding with _ | binding <;> rw [hrb] at h <;>
        dsimp only at h
      · -- bindingless struct result
        rcases hin : (m.types.getD result.ty dummy_ty).inner with ⟨k, w⟩
          | ⟨sz, k, w⟩ | ⟨c, r, w⟩ | ⟨b, sc⟩ | ⟨top, members⟩ <;> rw [hin] at h <;>
          dsimp only at h
        · exact Except.noConfusion h
        · exact Except.noConfusion h
        · exact Except.noConfusion h
        · exact Except.noConfusion h
        · rcases hrm : wf_result_members cfg m SpvStorageClass.Output
              (st, false, acc.varying_ids, []) members
              with e | ⟨stA, hps, vidsA, results⟩ <;> rw [hrm] at h <;>
            dsimp only at h
          · exact Except.noConfusion h
          · split at h
            · cases h
              rw [gcs_exts, exts_decorate, exts_push_decl,
                tf_get_float_pointer_type_id.exts, exts_next_id]
              exact wf_result_members_exts _ _ _ _ _ _ _ _ _ _ _ _ hrm
            · cases h
              exact wf_result_members_exts _ _ _ _ _ _ _ _ _ _ _ _ hrm
      · -- bound result: one Output varying
        rcases hwv : write_varying cfg (get_type_id st (.Handle result.ty)).1 m
            SpvStorageClass.Output none result.ty binding
            with e | ⟨stA, vid⟩ <;> rw [hwv] at h <;> dsimp only at h
        · exact Except.noConfusion h
        · split at h
          · cases h
            rw [gcs_exts, exts_decorate, exts_push_decl,
              tf_get_float_pointer_type_id.exts, exts_next_id,
              wv_exts _ _ _ _ _ _ _ _ _ hwv, tf_get_type_id.exts]
          · cases h
            rw [wv_exts _ _ _ _ _ _ _ _ _ hwv, tf_get_type_id.exts]

theorem write_function_exts (cfg : Config) (st : WriterState) (f : IrFunction)
    (info : FunctionInfo) (m : Module) (itf : Option ShaderStage)
    (st1 : WriterState) (fid : Word) (vids : List Word)
    (h : write_function cfg st f info m itf = .ok (st1, fid, vids)) :
    st1.logical_layout.extensions = st.logical_layout.extensions := by
  unfold write_function at h
  dsimp only at h
  split at h
  · exact Except.noConfusion h
  · rename_i acc hargs
    rcases hres : wf_resolve cfg m f itf acc acc.st
        with e | ⟨stB, pre, vids2, eps, rtid⟩ <;> rw [hres] at h <;> dsimp only at h
    · exact Except.noConfusion h
    · split at h
      · exact Except.noConfusion h
      · cases h
        simp only [exts_next_id, exts_push_name_if, exts_push_decl,
          wf_global_loads_exts, tf_get_function_type.exts]
        refine (wf_resolve_exts _ _ _ _ _ _ _ _ _ _ _ hres).trans ?_
        refine (wf_args_exts cfg m itf f.arguments _ acc hargs).trans ?_
        dsimp only
        simp only [exts_next_id]
        rw [wf_locals_exts]

theorem waf_exts (cfg : Config) (m : Module) (info : ModuleInfo) (ep : Option Nat) :
    ∀ (l : List (Nat × IrFunction)) (st st1 : WriterState),
      write_all_functions cfg m info ep st l = .ok st1 →
      st1.logical_layout.extensions = st.logical_layout.extensions := by
  intro l
  induction l with
  | nil =>
    intro st st1 h
    cases h
    rfl
  | cons hd tl ih =>
    intro st st1 h
    rcases hd with ⟨handle, f⟩
    unfold write_all_functions at h
    dsimp only at h
    split at h
    · exact ih st st1 h
    · rcases hwf : write_function cfg st f (info.functions.getD handle ⟨[]⟩) m none
          with e | ⟨stA, fid, vds⟩ <;> rw [hwf] at h <;> dsimp only at h
      · exact Except.noConfusion h
      · refine (ih _ _ h).trans ?_
        dsimp only
        exact write_function_exts _ _ _ _ _ _ _ _ _ hwf

@[simp]
theorem exts_write_execution_mode (st : WriterState) (fid : Word)
    (mode : ExecutionMode) :
    (write_execution_mode st fid mode).logical_layout.extensions
      = st.logical_layout.extensions := rfl

theorem write_entry_point_exts (cfg : Config) (st : WriterState)
    (ep : EntryPoint) (info : FunctionInfo) (m : Module)
    (st1 : WriterState) (inst : Instruction)
    (h : write_entry_point cfg st ep info m = .ok (st1, inst)) :
    st1.logical_layout.extensions = st.logical_layout.extensions := by
  unfold write_entry_point at h
  rcases hwf : write_function cfg st ep.function info m (some ep.stage)
      with e | ⟨stA, fid, iids⟩ <;> rw [hwf] at h <;> dsimp only at h
  · exact Except.noConfusion h
  · have hA : stA.logical_layout.extensions = st.logical_layout.extensions :=
      write_function_exts _ _ _ _ _ _ _ _ _ hwf
    rcases hst : ep.stage with _ | _ | _ <;> rw [hst] at h <;> dsimp only at h
    · cases h
      exact hA
    · split at h <;> (try split at h) <;> cases h <;>
        simp only [exts_write_execution_mode] <;> exact hA
    · cases h
      dsimp only
      exact hA

theorem wep_exts (cfg : Config) (m : Module) (info : ModuleInfo) (ep : Option Nat) :
    ∀ (l : List (Nat × EntryPoint)) (st st1 : WriterState),
      write_entry_points cfg m info ep st l = .ok st1 →
      st1.logical_layout.extensions = st.logical_layout.extensions := by
  intro l
  induction l with
  | nil =>
    intro st st1 h
    cases h
    rfl
  | cons hd tl ih =>
    intro st st1 h
    rcases hd with ⟨index, irep⟩
    unfold write_entry_points at h
    dsimp only at h
    split at h
    · exact ih st st1 h
    · rcases hwe : write_entry_point cfg st irep (info.get_entry_point index) m
          with e | ⟨stA, epi⟩ <;> rw [hwe] at h <;> dsimp only at h
      · exact Except.noConfusion h
      · refine (ih _ _ h).trans ?_
        dsimp only
        exact write_entry_point_exts _ _ _ _ _ _ _ hwe

@[simp]
theorem exts_write_capabilities (st : WriterState) (m : Module) :
    (write_capabilities st m).logical_layout.extensions
      = st.logical_layout.extensions := by
  unfold write_capabilities
  split <;> rfl

@[simp]
theorem exts_write_memory_model (st : WriterState) :
    (write_memory_model_inst st).logical_layout.extensions
      = st.logical_layout.extensions := rfl

@[simp]
theorem exts_flush_debugs_annots (cfg : Config) (st : WriterState) :
    (flush_debugs_annots cfg st).logical_layout.extensions
      = st.logical_layout.extensions := by
  unfold flush_debugs_annots
  split <;> rfl

@[simp]
theorem exts_write_preamble (cfg : Config) (st : WriterState) :
    (write_preamble cfg st).logical_layout.extensions
      = st.logical_layout.extensions := by
  unfold write_preamble
  split <;> rfl

/-- Only step 1 of `write_logical_layout` writes the extensions section:
on success the final extensions are exactly those `write_extensions`
produced. -/
theorem wll_exts (cfg : Config) (st : WriterState) (m : Module)
    (info : ModuleInfo) (ep : Option Nat) (stL : WriterState)
    (h : write_logical_layout cfg st m info ep = .ok stL) :
    stL.logical_layout.extensions
      = (write_extensions cfg st m).logical_layout.extensions := by
  unfold write_logical_layout at h
  dsimp only at h
  split at h
  · exact Except.noConfusion h
  · rename_i stA hat
    split at h
    · exact Except.noConfusion h
    · rename_i stB hwaf
      split at h
      · exact Except.noConfusion h
      · rename_i stC hwep
        cases h
        simp only [exts_flush_debugs_annots, exts_write_memory_model,
          exts_write_capabilities]
        rw [wep_exts _ _ _ _ _ _ _ hwep]
        rw [waf_exts _ _ _ _ _ _ _ hwaf]
        rw [wag_exts, wcc_exts]
        rw [wat_exts _ _ _ _ _ hat]
        rw [wsc_exts]
        dsimp only
        rw [exts_write_preamble]

/-- Membership of the storage-buffer extension in what `write_extensions`
emits from a clean writer: present exactly when the version word is below
0x10300 and the module has a `Storage`-class global. -/
theorem sb_ext_mem (cfg : Config) (m : Module) :
    (Instruction.extension storage_buffer_ext
        ∈ (write_extensions cfg initial_state m).logical_layout.extensions)
      ↔ (cfg.version < 0x10300 ∧ has_storage_buffers m = true) := by
  have hinit : initial_state.logical_layout.extensions = [] := rfl
  unfold write_extensions
  by_cases hv : cfg.version < 0x10300 <;>
    rcases hs : has_storage_buffers m with _ | _ <;>
    rcases hvi : has_view_index m with _ | _ <;>
    simp [hv, hs, hvi, hinit, storage_buffer_ext]

/-- C9: a successful `write` emits
`OpExtension "SPV_KHR_storage_buffer_storage_class"` exactly when the
configured version word (built by `Writer::new` as
`(major << 16) ||| (minor << 8)`) is below 0x10300 and the module has at
least one `Storage`-class global. -/
theorem storage_buffer_extension (cfg : Config) (st : WriterState) (m : Module)
    (info : ModuleInfo) (po : Option PipelineOptions) (words : List Word)
    (st' : WriterState) (out : List Word)
    (h : write cfg st m info po words = (.ok st', out)) :
    (Instruction.extension storage_buffer_ext ∈ st'.logical_layout.extensions
      ↔ (cfg.version < 0x10300 ∧ has_storage_buffers m = true)) := by
  unfold write at h
  dsimp only at h
  have hreset : reset cfg st = initial_state := rfl
  rcases po with _ | po
  · dsimp only at h
    rcases hw : write_logical_layout cfg (reset cfg st) m info none
        with e | stL <;> rw [hw] at h <;> dsimp only at h
    · exact absurd (congrArg Prod.fst h) (by simp)
    · have h1 := congrArg Prod.fst h
      dsimp only at h1
      rw [Except.ok.injEq] at h1
      rw [← h1]
      have : (write_physical_layout stL).logical_layout.extensions
          = stL.logical_layout.extensions := rfl
      rw [this, wll_exts _ _ _ _ _ _ hw, hreset]
      exact sb_ext_mem cfg m
  · dsimp only at h
    rcases hf : m.entry_points.findIdx?
        (fun ep => po.shader_stage == ep.stage && po.entry_point == ep.name) 0
        with _ | idx <;> rw [hf] at h <;> dsimp only at h
    · exact absurd (congrArg Prod.fst h) (by simp)
    · rcases hw : write_logical_layout cfg (reset cfg st) m info (some idx)
        with e | stL <;> rw [hw] at h <;> dsimp only at h
      · exact absurd (congrArg Prod.fst h) (by simp)
      · have h1 := congrArg Prod.fst h
        dsimp only at h1
        rw [Except.ok.injEq] at h1
        rw [← h1]
        have : (write_physical_layout stL).logical_layout.extensions
            = stL.logical_layout.extensions := rfl
        rw [this, wll_exts _ _ _ _ _ _ hw, hreset]
        exact sb_ext_mem cfg m

/-- C9 witness: the one-storage-global module carries the extension at
language version (1, 2) (raw word 0x10200) and not at (1, 3) (raw word
0x10300). -/
theorem storage_buffer_extension_witness :
    (Instruction.extension storage_buffer_ext
        ∈ c9_state_12.logical_layout.extensions
      ↔ (example_cfg_12.version < 0x10300
          ∧ has_storage_buffers storage_module = true)) ∧
    (Instruction.extension storage_buffer_ext
        ∈ c9_state_13.logical_layout.extensions
      ↔ (example_cfg_13.version < 0x10300
          ∧ has_storage_buffers storage_module = true)) :=
  ⟨storage_buffer_extension example_cfg_12 initial_state storage_module example_info
      none [] c9_state_12 c9_words_12 rfl,
    storage_buffer_extension example_cfg_13 initial_state storage_module example_info
      none [] c9_state_13 c9_words_13 rfl⟩

end NagaSpv
